import Mathlib

/-!
Verification development for the binance-collector repository.

The development shallowly embeds the two Python source files
(`collector.py`, `migrate_inline.py`) into Lean:

* timestamps are `Int` (Python integers; milliseconds since the Unix epoch);
* file contents are `String` / `List Char` (ASCII model of Python `str`);
* the dataset file is `Option (List (List String))` (`none` = file absent,
  rows of comma-separated fields, header row included);
* the watermark file is `Option String` (`none` = file absent);
* the remote source is a function from the optional start parameter to the
  returned page (a successful HTTP response; a transport failure aborts the
  whole run and is outside every claim's scope);
* fallible code (the `FormatError` raised on an unparsable watermark,
  the `ValueError` raised by `datetime` on out-of-range timestamps) is
  modelled with `Except` / `Option`.

Loops (`backfill_last_n_days`'s `while True`, the digit renderer, the year
peeling of `datetime.fromtimestamp`) are modelled with explicit fuel so that
every definition is executable and kernel-reducible; the fuel bounds are
proved sufficient where a claim depends on it.
-/

/-! ### Decimal digits: rendering and parsing

`str(int)` and `int(str)` for non-negative Python integers. -/

/-- ASCII decimal digit test (model of Python `str.isdigit` on ASCII text). -/
def isAsciiDigit (c : Char) : Bool := '0' ≤ c ∧ c ≤ '9'

/-- The character for the decimal digit `d` (for `d < 10`). -/
def digitCh (d : Nat) : Char := Char.ofNat (48 + d)

/-- Fueled decimal rendering of a natural number, most significant digit
first.  Fuel `n + 1` is always sufficient (proved below). -/
def natToDigitsAux : Nat → Nat → List Char
  | 0, _ => []
  | f + 1, n => if n < 10 then [digitCh n] else natToDigitsAux f (n / 10) ++ [digitCh (n % 10)]

/-- Decimal rendering of a natural number (model of Python `str(n)` for
`n ≥ 0`). -/
def renderNat (n : Nat) : List Char := natToDigitsAux (n + 1) n

/-- Value of a list of decimal digit characters (model of Python `int(s)` on
a digit string). -/
def parseNatDigits (cs : List Char) : Nat :=
  cs.foldl (fun a c => a * 10 + (c.toNat - 48)) 0

theorem digitCh_isDigit {d : Nat} (h : d < 10) : isAsciiDigit (digitCh d) = true := by
  interval_cases d <;> decide

theorem digitCh_toNat {d : Nat} (h : d < 10) : (digitCh d).toNat = 48 + d := by
  interval_cases d <;> decide

theorem parseNatDigits_append (a b : List Char) :
    parseNatDigits (a ++ b) = b.foldl (fun a c => a * 10 + (c.toNat - 48)) (parseNatDigits a) := by
  simp [parseNatDigits, List.foldl_append]

theorem natToDigitsAux_spec : ∀ f n, n < f →
    (∀ c ∈ natToDigitsAux f n, isAsciiDigit c = true) ∧
      parseNatDigits (natToDigitsAux f n) = n ∧ natToDigitsAux f n ≠ [] := by
  intro f
  induction f with
  | zero => intro n h; omega
  | succ f ih =>
    intro n h
    by_cases h10 : n < 10
    · refine ⟨?_, ?_, ?_⟩ <;> simp [natToDigitsAux, h10, parseNatDigits]
      · exact digitCh_isDigit h10
      · rw [digitCh_toNat h10]; omega
    · have hdiv : n / 10 < f := by omega
      obtain ⟨ihd, ihv, ihne⟩ := ih (n / 10) hdiv
      refine ⟨?_, ?_, ?_⟩
      · intro c hc
        simp only [natToDigitsAux, if_neg h10, List.mem_append, List.mem_singleton] at hc
        rcases hc with hc | hc
        · exact ihd c hc
        · subst hc; exact digitCh_isDigit (Nat.mod_lt n (by omega))
      · simp only [natToDigitsAux, if_neg h10]
        rw [parseNatDigits_append, List.foldl_cons, List.foldl_nil, ihv,
          digitCh_toNat (Nat.mod_lt n (by omega))]
        omega
      · simp [natToDigitsAux, if_neg h10]

theorem renderNat_digits (n : Nat) : ∀ c ∈ renderNat n, isAsciiDigit c = true :=
  (natToDigitsAux_spec (n + 1) n (by omega)).1

theorem parseNatDigits_renderNat (n : Nat) : parseNatDigits (renderNat n) = n :=
  (natToDigitsAux_spec (n + 1) n (by omega)).2.1

theorem renderNat_ne_nil (n : Nat) : renderNat n ≠ [] :=
  (natToDigitsAux_spec (n + 1) n (by omega)).2.2

/-- Zero-padded fixed-width decimal rendering (model of `strftime` field
padding such as `%m` → `"05"`). -/
def padNat (w n : Nat) : List Char :=
  List.replicate (w - (renderNat n).length) '0' ++ renderNat n

theorem padNat_digits (w n : Nat) : ∀ c ∈ padNat w n, isAsciiDigit c = true := by
  intro c hc
  rcases List.mem_append.mp hc with hc | hc
  · rw [List.eq_of_mem_replicate hc]; decide
  · exact renderNat_digits n c hc

theorem parseNatDigits_replicate_zero (k : Nat) (cs : List Char) :
    parseNatDigits (List.replicate k '0' ++ cs) = parseNatDigits cs := by
  induction k with
  | zero => simp
  | succ k ih =>
    simpa [List.replicate_succ, parseNatDigits] using ih

theorem parseNatDigits_padNat (w n : Nat) : parseNatDigits (padNat w n) = n := by
  rw [padNat, parseNatDigits_replicate_zero, parseNatDigits_renderNat]

theorem padNat_ne_nil (w n : Nat) : padNat w n ≠ [] := by
  intro h
  rcases List.append_eq_nil.mp h with ⟨-, h2⟩
  exact renderNat_ne_nil n h2

/-- Length facts for the renderer: `n < 10 ^ k` gives at most `k` digits. -/
theorem natToDigitsAux_length : ∀ f n k, n < f → n < 10 ^ k → 1 ≤ k →
    (natToDigitsAux f n).length ≤ k := by
  intro f
  induction f with
  | zero => intro n k h; omega
  | succ f ih =>
    intro n k h hk h1
    by_cases h10 : n < 10
    · simp [natToDigitsAux, h10]; omega
    · have hdiv : n / 10 < f := by omega
      have hkd : n / 10 < 10 ^ (k - 1) := by
        have : 10 * (10 ^ (k - 1)) = 10 ^ k := by
          rw [← pow_succ']
          congr 1
          omega
        omega
      have h1k : 1 ≤ k - 1 := by
        by_contra hcon
        have : k = 1 := by omega
        subst this
        simp at hkd
        omega
      have := ih (n / 10) (k - 1) hdiv hkd h1k
      simp only [natToDigitsAux, if_neg h10, List.length_append, List.length_singleton]
      omega

theorem renderNat_length_le {n k : Nat} (hk : n < 10 ^ k) (h1 : 1 ≤ k) :
    (renderNat n).length ≤ k :=
  natToDigitsAux_length (n + 1) n k (by omega) hk h1

theorem padNat_length {w n : Nat} (hn : n < 10 ^ w) (h1 : 1 ≤ w) :
    (padNat w n).length = w := by
  have hle := renderNat_length_le hn h1
  have hne := renderNat_ne_nil n
  have hpos : 1 ≤ (renderNat n).length := List.length_pos.mpr hne
  simp [padNat]
  omega

/-! ### Python string helpers: `strip`, `isdigit`, `replace(" UTC", "")` -/

/-- Whitespace per Python `str.strip()` (ASCII model). -/
def isPySpace (c : Char) : Bool :=
  c = ' ' ∨ c = '\t' ∨ c = '\n' ∨ c = '\r' ∨ c = '\x0b' ∨ c = '\x0c'

/-- Model of Python `str.strip()`: drop leading and trailing whitespace. -/
def pyStripChars (cs : List Char) : List Char :=
  ((cs.dropWhile isPySpace).reverse.dropWhile isPySpace).reverse

/-- Model of Python `str.isdigit()` (ASCII): non-empty and all digits. -/
def pyIsDigitChars (cs : List Char) : Bool :=
  !cs.isEmpty && cs.all isAsciiDigit

theorem pyStripChars_of_ends (cs : List Char) (h1 : ∀ c, cs.head? = some c → isPySpace c = false)
    (h2 : ∀ c, cs.getLast? = some c → isPySpace c = false) : pyStripChars cs = cs := by
  cases cs with
  | nil => rfl
  | cons a l =>
    have ha : isPySpace a = false := h1 a rfl
    have hdrop : (a :: l).dropWhile isPySpace = a :: l := by
      rw [List.dropWhile_cons_of_neg (by simp [ha])]
    rw [pyStripChars, hdrop]
    have hlast : ((a :: l).reverse).head? = some ((a :: l).getLast (by simp)) := by
      rw [List.head?_reverse, List.getLast?_eq_getLast]
    have hlastspace : isPySpace ((a :: l).getLast (by simp)) = false := by
      apply h2
      rw [List.getLast?_eq_getLast]
    have : ((a :: l).reverse).dropWhile isPySpace = (a :: l).reverse := by
      cases hrev : (a :: l).reverse with
      | nil => rfl
      | cons b r =>
        have hb : (a :: l).getLast (by simp) = b := by
          have := hlast
          rw [hrev] at this
          symm
          simpa using this
        rw [List.dropWhile_cons_of_neg]
        simp [← hb, hlastspace]
    rw [this, List.reverse_reverse]

/-- Model of Python `s.replace(" UTC", "")`: remove every (non-overlapping,
leftmost-first) occurrence of the four characters `" UTC"`. -/
def dropUtc : List Char → List Char
  | ' ' :: 'U' :: 'T' :: 'C' :: rest => dropUtc rest
  | c :: rest => c :: dropUtc rest
  | [] => []

theorem dropUtc_cons (c : Char) (rest : List Char)
    (h : c = ' ' → ∀ r, rest ≠ 'U' :: 'T' :: 'C' :: r) :
    dropUtc (c :: rest) = c :: dropUtc rest := by
  rw [dropUtc.eq_def]
  split
  · rename_i r heq
    injection heq with h1 h2
    exact absurd h2 (h h1 r)
  · rename_i c2 r2 heq
    injection heq with h1 h2
    subst h1
    subst h2
    rfl
  · rename_i heq
    exact absurd heq (by simp)

theorem dropUtc_append_of_no_U (l : List Char) (hl : ∀ c ∈ l, c ≠ 'U') :
    dropUtc (l ++ [' ', 'U', 'T', 'C']) = l := by
  induction l with
  | nil => rfl
  | cons a l ih =>
    have hl' : ∀ c ∈ l, c ≠ 'U' := fun c hc => hl c (by simp [hc])
    have ihl := ih hl'
    rw [List.cons_append, dropUtc_cons, ihl]
    intro hsp r hr
    cases l with
    | nil => simp at hr
    | cons b r2 =>
      have hb : b ≠ 'U' := hl' b (by simp)
      rw [List.cons_append] at hr
      injection hr with h1 h2
      exact hb h1

/-! ### Calendar model (proleptic Gregorian, as implemented by Python datetime)

`collector.py` converts between millisecond timestamps and strings of the
form `"YYYY-MM-DD HH:MM:SS UTC"` via `datetime.fromtimestamp` / `strptime` /
`timestamp()`.  The model below implements the same civil-calendar
arithmetic over `Nat`/`Int`.  `datetime` only represents years 1 ..= 9999;
`fromtimestamp` raises `ValueError` outside that range, which the model
returns as `none`. -/

/-- Gregorian leap-year test. -/
def isLeap (y : Nat) : Bool := y % 4 = 0 && (y % 100 != 0 || y % 400 = 0)

/-- Number of days of month `m` (1-12) of year `y`; arbitrary (31) outside
1-12, which no proved statement depends on. -/
def daysInMonth (y m : Nat) : Nat :=
  match m with
  | 2 => if isLeap y then 29 else 28
  | 4 => 30
  | 6 => 30
  | 9 => 30
  | 11 => 30
  | _ => 31

/-- Number of days of year `y`. -/
def yearDays (y : Nat) : Nat := if isLeap y then 366 else 365

/-- Sum of `yearDays` over `a ≤ i < b`. -/
def sumYearDays (a : Nat) : Nat → Nat
  | 0 => 0
  | b + 1 => if b < a then 0 else sumYearDays a b + yearDays b

/-- Sum of `daysInMonth y` over `1 ≤ i < m`. -/
def monthsBeforeDays (y : Nat) : Nat → Nat
  | 0 => 0
  | 1 => 0
  | m + 2 => monthsBeforeDays y (m + 1) + daysInMonth y (m + 1)

/-- Signed count of days from 1970-01-01 to the first day of year `y`. -/
def daysFromEpochToYear (y : Nat) : Int :=
  if 1970 ≤ y then (sumYearDays 1970 y : Int) else -(sumYearDays y 1970 : Int)

/-- Seconds since the epoch of the civil instant `y-mo-d h:mi:s` UTC
(model of `datetime(y, mo, d, h, mi, s, tzinfo=utc).timestamp()`, which is
exact for a timezone-aware datetime). -/
def dateToSecs (y mo d h mi s : Nat) : Int :=
  86400 * (daysFromEpochToYear y + (monthsBeforeDays y mo : Int) + ((d : Int) - 1))
    + (3600 * (h : Int) + 60 * (mi : Int) + (s : Int))

/-- Fueled year peeling: starting at year `y` with `d` days remaining,
advance whole years.  Fuel 8030 covers 1970 ..= 9999. -/
def yearFromDays : Nat → Nat → Nat → Nat × Nat
  | 0, y, d => (y, d)
  | f + 1, y, d => if d < yearDays y then (y, d) else yearFromDays f (y + 1) (d - yearDays y)

/-- Fueled month peeling inside year `y`, starting at month `m`. -/
def monthFromDays : Nat → Nat → Nat → Nat → Nat × Nat
  | 0, _, m, d => (m, d)
  | f + 1, y, m, d =>
    if d < daysInMonth y m then (m, d) else monthFromDays f y (m + 1) (d - daysInMonth y m)

/-- Years of fuel needed to reach year 9999 from 1970. -/
def yearFuel : Nat := 8030

/-- Civil fields `(y, mo, d, h, mi, s)` of the instant `t` seconds after the
epoch (model of `datetime.fromtimestamp(t, tz=utc)` for representable `t`). -/
def secsToDate (t : Nat) : Nat × Nat × Nat × Nat × Nat × Nat :=
  let days := t / 86400
  let rem := t % 86400
  let yd := yearFromDays yearFuel 1970 days
  let md := monthFromDays 12 yd.1 1 yd.2
  (yd.1, md.1, md.2 + 1, rem / 3600, rem % 3600 / 60, rem % 60)

/-- Characters of `dt.strftime("%Y-%m-%d %H:%M:%S UTC")` for the instant `t`
seconds after the epoch. -/
def renderUtcChars (t : Nat) : List Char :=
  match secsToDate t with
  | (y, mo, d, h, mi, s) =>
    padNat 4 y ++ '-' :: padNat 2 mo ++ '-' :: padNat 2 d ++ ' ' :: padNat 2 h
      ++ ':' :: padNat 2 mi ++ ':' :: padNat 2 s ++ [' ', 'U', 'T', 'C']

/-- First second of year 10000: the least timestamp `datetime.fromtimestamp`
rejects (`datetime.MAXYEAR = 9999`). -/
def maxUtcSecs : Int := 253402300800

/-- Model of `ms_to_utc_str` (collector.py lines 38-40).
`datetime.fromtimestamp(ms / 1000, tz=timezone.utc)` computes the instant
`ms // 1000` seconds after the epoch (the float quotient rounds to a
microsecond count that `strftime` truncates away; for `|ms| < 2^53` the
second is exactly `ms // 1000`), then `strftime` formats it.  `none` models
the `ValueError` raised beyond year 9999; pre-epoch instants (negative
`ms`) never arise in this program and are also mapped to `none`. -/
def ms_to_utc_str (ms : Int) : Option String :=
  if 0 ≤ ms ∧ ms / 1000 < maxUtcSecs then some (String.mk (renderUtcChars (ms / 1000).toNat))
  else none

/-! ### strptime model

`utc_str_to_ms` does `datetime.strptime(s.replace(" UTC", ""),
"%Y-%m-%d %H:%M:%S")`.  CPython compiles the format through
`_strptime.TimeRE` into one anchored regex that must consume the whole
input: `%Y` is exactly four digits; `%m` is `1[0-2]|0[1-9]|[1-9]`; `%d` is
`3[0-1]|[1-2]\d|0[1-9]|[1-9]| [1-9]` (note the last alternative: a blank
followed by one nonzero digit); `%H` is `2[0-3]|[0-1]\d|\d`; `%M` is
`[0-5]\d|\d`; `%S` is `6[0-1]|[0-5]\d|\d`; a literal blank in the format
matches a non-empty whitespace run and `-`/`:` match themselves.  The
resulting fields must then form a valid `datetime` (year 1-9999,
calendar-valid month/day, `h ≤ 23`, `mi ≤ 59`, `s ≤ 59`).

For the digit-led alternatives the regex-with-backtracking is equivalent
to reading the maximal digit run (of length 1-2) and range-checking its
value afterwards: every two-digit alternative requires two digits, the
alternatives jointly cover exactly the in-range values of each width, and
the one-digit fallback cannot rescue a failed two-digit match because the
follow-up pattern (`-`, `:`, whitespace, or end of input) never matches
the digit it would leave behind.  Out-of-range values the regex rejects at
match time (month 13, day 32, hour 24, a 3-digit run) are rejected here by
`utcFieldsValid` instead — the same accept/reject outcome and the same
`ValueError`; likewise `%S` admitting 60-61 before the `datetime`
constructor rejects it.  The two genuinely width-sensitive shapes are
modelled structurally: `parseYear4` (exactly four digits) and
`parseDayField` (the extra space-led alternative of `%d`). -/

/-- Read a maximal digit run of length 1 ..= `maxW`; return its value and
the rest of the input. -/
def parseNumField (maxW : Nat) (cs : List Char) : Option (Nat × List Char) :=
  let ds := cs.takeWhile isAsciiDigit
  if 1 ≤ ds.length ∧ ds.length ≤ maxW then some (parseNatDigits ds, cs.dropWhile isAsciiDigit)
  else none

/-- Directive `%Y`: exactly four digits (`\d\d\d\d`), no more, no fewer. -/
def parseYear4 : List Char → Option (Nat × List Char)
  | a :: b :: c :: d :: rest =>
    if isAsciiDigit a && isAsciiDigit b && isAsciiDigit c && isAsciiDigit d then
      some (parseNatDigits [a, b, c, d], rest)
    else none
  | _ => none

/-- Directive `%d`: digit-led inputs take the 1-2 digit run (range-checked
later by `utcFieldsValid`); the alternative `' [1-9]'` accepts a blank
followed by a single nonzero digit (it cannot consume two digits, so a
whitespace character must follow for the overall match to go through). -/
def parseDayField (cs : List Char) : Option (Nat × List Char) :=
  match cs with
  | ' ' :: c :: rest =>
    if '1' ≤ c ∧ c ≤ '9' then some (c.toNat - 48, rest) else none
  | _ => parseNumField 2 cs

/-- Expect the literal separator `c`. -/
def parseSep (c : Char) : List Char → Option (List Char)
  | x :: r => if x = c then some r else none
  | [] => none

/-- Expect a non-empty whitespace run (a literal blank in a `strptime`
format matches one or more whitespace characters). -/
def parseWsRun (cs : List Char) : Option (List Char) :=
  if 1 ≤ (cs.takeWhile isPySpace).length then some (cs.dropWhile isPySpace) else none

/-- Field extraction of `strptime(s, "%Y-%m-%d %H:%M:%S")` (without the
range validation, which `utcFieldsValid` performs). -/
def parseUtcFields (cs : List Char) : Option (Nat × Nat × Nat × Nat × Nat × Nat) := do
  let (y, r1) ← parseYear4 cs
  let r2 ← parseSep '-' r1
  let (mo, r3) ← parseNumField 2 r2
  let r4 ← parseSep '-' r3
  let (d, r5) ← parseDayField r4
  let r6 ← parseWsRun r5
  let (h, r7) ← parseNumField 2 r6
  let r8 ← parseSep ':' r7
  let (mi, r9) ← parseNumField 2 r8
  let r10 ← parseSep ':' r9
  let (s, r11) ← parseNumField 2 r10
  match r11 with
  | [] => some (y, mo, d, h, mi, s)
  | _ => none

/-- Range validation performed by the `datetime` constructor. -/
def utcFieldsValid (y mo d h mi s : Nat) : Bool :=
  1 ≤ y && y ≤ 9999 && 1 ≤ mo && mo ≤ 12 && 1 ≤ d && d ≤ daysInMonth y mo
    && h ≤ 23 && mi ≤ 59 && s ≤ 59

/-- Model of `utc_str_to_ms` (collector.py lines 42-46): remove every
occurrence of `" UTC"`, parse with `strptime`, convert to milliseconds.
`none` models the `ValueError` raised on a parse failure. -/
def utc_str_to_ms (str : String) : Option Int :=
  match parseUtcFields (dropUtc str.data) with
  | none => none
  | some (y, mo, d, h, mi, s) =>
    if utcFieldsValid y mo d h mi s then some (1000 * dateToSecs y mo d h mi s) else none

/-- The fatal error raised when the watermark file matches neither format. -/
inductive WmErr where
  | formatError
deriving DecidableEq, Repr

/-- Model of `read_last_open_time_ms` (collector.py lines 63-81).  The
argument is the watermark file: `none` when `STATE_PATH` does not exist,
otherwise its text content. -/
def read_last_open_time_ms (file : Option String) : Except WmErr (Option Int) :=
  match file with
  | none => Except.ok none
  | some content =>
    let s := pyStripChars content.data
    if s.isEmpty then Except.ok none
    else if pyIsDigitChars s then Except.ok (some (parseNatDigits s : Int))
    else
      match utc_str_to_ms (String.mk s) with
      | some v => Except.ok (some v)
      | none => Except.error WmErr.formatError

/-- Model of `write_last_open_time_ms` (collector.py lines 83-86): the text
written to the watermark file; `none` models the run aborting because
`ms_to_utc_str` raised. -/
def write_last_open_time_ms (ms : Int) : Option String := ms_to_utc_str ms

/-! ### Calendar round-trip lemmas -/

theorem yearDays_pos (y : Nat) : 0 < yearDays y := by
  unfold yearDays
  split <;> omega

theorem daysInMonth_pos (y m : Nat) : 0 < daysInMonth y m := by
  unfold daysInMonth
  split <;> (try split) <;> omega

theorem daysInMonth_le (y m : Nat) : daysInMonth y m ≤ 31 := by
  unfold daysInMonth
  split <;> (try split) <;> omega

theorem sumYearDays_self (a : Nat) : sumYearDays a a = 0 := by
  cases a with
  | zero => rfl
  | succ b => simp [sumYearDays]

theorem sumYearDays_succ {a b : Nat} (h : a ≤ b) :
    sumYearDays a (b + 1) = sumYearDays a b + yearDays b := by
  simp [sumYearDays, Nat.not_lt.mpr h]

theorem sumYearDays_step_left {a b : Nat} (h : a < b) :
    sumYearDays a b = yearDays a + sumYearDays (a + 1) b := by
  induction b with
  | zero => omega
  | succ b ih =>
    rcases Nat.lt_succ_iff_lt_or_eq.mp h with hb | hb
    · rw [sumYearDays_succ (by omega), ih hb, sumYearDays_succ (by omega)]
      omega
    · subst hb
      rw [sumYearDays_succ (by omega), sumYearDays_self, sumYearDays_self]
      omega

theorem yearFromDays_spec : ∀ f y d, d < sumYearDays y (y + f) →
    y ≤ (yearFromDays f y d).1 ∧ (yearFromDays f y d).1 < y + f ∧
      (yearFromDays f y d).2 < yearDays (yearFromDays f y d).1 ∧
      sumYearDays y (yearFromDays f y d).1 + (yearFromDays f y d).2 = d := by
  intro f
  induction f with
  | zero =>
    intro y d hd
    rw [Nat.add_zero, sumYearDays_self] at hd
    omega
  | succ f ih =>
    intro y d hd
    by_cases hy : d < yearDays y
    · refine ⟨?_, ?_, ?_, ?_⟩ <;> simp [yearFromDays, hy, sumYearDays_self] <;> omega
    · have hstep : sumYearDays y (y + (f + 1)) = yearDays y + sumYearDays (y + 1) (y + (f + 1)) :=
        sumYearDays_step_left (by omega)
      have hrec : d - yearDays y < sumYearDays (y + 1) ((y + 1) + f) := by
        have : y + (f + 1) = (y + 1) + f := by omega
        rw [← this]
        omega
      obtain ⟨ih1, ih2, ih3, ih4⟩ := ih (y + 1) (d - yearDays y) hrec
      have hres : yearFromDays (f + 1) y d = yearFromDays f (y + 1) (d - yearDays y) := by
        simp [yearFromDays, hy]
      rw [hres]
      refine ⟨by omega, by omega, ih3, ?_⟩
      have hstep2 : sumYearDays y (yearFromDays f (y + 1) (d - yearDays y)).1 =
          yearDays y + sumYearDays (y + 1) (yearFromDays f (y + 1) (d - yearDays y)).1 :=
        sumYearDays_step_left (by omega)
      omega

theorem monthsBeforeDays_succ (y : Nat) {m : Nat} (h : 1 ≤ m) :
    monthsBeforeDays y (m + 1) = monthsBeforeDays y m + daysInMonth y m := by
  match m, h with
  | m' + 1, _ => rfl

theorem monthsBeforeDays_thirteen (y : Nat) : monthsBeforeDays y 13 = yearDays y := by
  by_cases h : isLeap y <;>
    simp [monthsBeforeDays, daysInMonth, yearDays, h] <;> omega

theorem monthFromDays_spec (y : Nat) : ∀ f m d, 1 ≤ m →
    monthsBeforeDays y m + d < monthsBeforeDays y (m + f) →
    m ≤ (monthFromDays f y m d).1 ∧ (monthFromDays f y m d).1 < m + f ∧
      (monthFromDays f y m d).2 < daysInMonth y (monthFromDays f y m d).1 ∧
      monthsBeforeDays y (monthFromDays f y m d).1 + (monthFromDays f y m d).2 =
        monthsBeforeDays y m + d := by
  intro f
  induction f with
  | zero =>
    intro m d hm hd
    rw [Nat.add_zero] at hd
    omega
  | succ f ih =>
    intro m d hm hd
    by_cases hdm : d < daysInMonth y m
    · refine ⟨?_, ?_, ?_, ?_⟩ <;> simp [monthFromDays, hdm] <;> omega
    · have hstep : monthsBeforeDays y (m + 1) = monthsBeforeDays y m + daysInMonth y m :=
        monthsBeforeDays_succ y hm
      have hrec : monthsBeforeDays y (m + 1) + (d - daysInMonth y m) <
          monthsBeforeDays y ((m + 1) + f) := by
        have : (m + 1) + f = m + (f + 1) := by omega
        rw [this]
        omega
      obtain ⟨ih1, ih2, ih3, ih4⟩ := ih (m + 1) (d - daysInMonth y m) (by omega) hrec
      have hres : monthFromDays (f + 1) y m d = monthFromDays f y (m + 1) (d - daysInMonth y m) := by
        simp [monthFromDays, hdm]
      rw [hres]
      refine ⟨by omega, by omega, ih3, by omega⟩

theorem sumYearDays_of_le {a b : Nat} (h : b ≤ a) : sumYearDays a b = 0 := by
  cases b with
  | zero => rfl
  | succ b => simp [sumYearDays, Nat.lt_of_succ_le h]

theorem sumYearDays_split (a b c : Nat) (hab : a ≤ b) (hbc : b ≤ c) :
    sumYearDays a c = sumYearDays a b + sumYearDays b c := by
  induction c, hbc using Nat.le_induction with
  | base => simp [sumYearDays_self]
  | succ c hc ih =>
    rw [sumYearDays_succ (by omega), ih, sumYearDays_succ (by omega)]
    omega

theorem yearDays_add_400 (y : Nat) : yearDays (y + 400) = yearDays y := by
  have h4 : (y + 400) % 4 = y % 4 := by omega
  have h100 : (y + 400) % 100 = y % 100 := by omega
  have h400 : (y + 400) % 400 = y % 400 := by omega
  simp [yearDays, isLeap, h4, h100, h400]

theorem sumYearDays_shift_400 (a : Nat) : ∀ b, sumYearDays (a + 400) (b + 400) = sumYearDays a b := by
  intro b
  induction b with
  | zero => rw [sumYearDays_of_le (by omega)]; rfl
  | succ b ih =>
    show sumYearDays (a + 400) ((b + 400) + 1) = sumYearDays a (b + 1)
    by_cases hb : b < a
    · rw [sumYearDays_of_le (by omega), sumYearDays_of_le (by omega)]
    · have hL : sumYearDays (a + 400) ((b + 400) + 1)
          = sumYearDays (a + 400) (b + 400) + yearDays (b + 400) := sumYearDays_succ (by omega)
      have hR : sumYearDays a (b + 1) = sumYearDays a b + yearDays b := sumYearDays_succ (by omega)
      rw [hL, hR, ih, yearDays_add_400]

theorem sumYearDays_shift_mul (a b : Nat) : ∀ k, sumYearDays (a + 400 * k) (b + 400 * k) = sumYearDays a b := by
  intro k
  induction k with
  | zero => rfl
  | succ k ih =>
    have h1 : a + 400 * (k + 1) = (a + 400 * k) + 400 := by ring
    have h2 : b + 400 * (k + 1) = (b + 400 * k) + 400 := by ring
    rw [h1, h2, sumYearDays_shift_400, ih]

set_option maxRecDepth 8000 in
theorem sumYearDays_2000_2400 : sumYearDays 2000 2400 = 146097 := by decide

theorem sumYearDays_blocks : ∀ k, sumYearDays 2000 (2000 + 400 * k) = 146097 * k := by
  intro k
  induction k with
  | zero => simpa using sumYearDays_self 2000
  | succ k ih =>
    have hsplit : sumYearDays 2000 (2000 + 400 * (k + 1)) =
        sumYearDays 2000 (2000 + 400 * k) + sumYearDays (2000 + 400 * k) (2000 + 400 * (k + 1)) := by
      apply sumYearDays_split <;> omega
    have hblk : sumYearDays (2000 + 400 * k) (2000 + 400 * (k + 1)) = 146097 := by
      have h2 : 2000 + 400 * (k + 1) = 2400 + 400 * k := by ring
      rw [h2, sumYearDays_shift_mul 2000 2400 k, sumYearDays_2000_2400]
    rw [hsplit, hblk, ih]
    ring

set_option maxRecDepth 2000 in
theorem sumYearDays_1970_2000 : sumYearDays 1970 2000 = 10957 := by decide

theorem sumYearDays_full : sumYearDays 1970 10000 = 2932897 := by
  have hsplit : sumYearDays 1970 10000 = sumYearDays 1970 2000 + sumYearDays 2000 10000 := by
    apply sumYearDays_split <;> omega
  have hblocks : sumYearDays 2000 10000 = 146097 * 20 := by
    have := sumYearDays_blocks 20
    simpa using this
  rw [hsplit, hblocks, sumYearDays_1970_2000]

theorem secsToDate_spec (t : Nat) (ht : t < 253402300800) :
    1970 ≤ (secsToDate t).1 ∧ (secsToDate t).1 ≤ 9999 ∧
      1 ≤ (secsToDate t).2.1 ∧ (secsToDate t).2.1 ≤ 12 ∧
      1 ≤ (secsToDate t).2.2.1 ∧ (secsToDate t).2.2.1 ≤ daysInMonth (secsToDate t).1 (secsToDate t).2.1 ∧
      (secsToDate t).2.2.2.1 ≤ 23 ∧ (secsToDate t).2.2.2.2.1 ≤ 59 ∧ (secsToDate t).2.2.2.2.2 ≤ 59 ∧
      dateToSecs (secsToDate t).1 (secsToDate t).2.1 (secsToDate t).2.2.1
        (secsToDate t).2.2.2.1 (secsToDate t).2.2.2.2.1 (secsToDate t).2.2.2.2.2 = (t : Int) := by
  have hfuel : yearFuel = 8030 := rfl
  have hfull : sumYearDays 1970 (1970 + yearFuel) = 2932897 := by
    rw [show 1970 + yearFuel = 10000 from rfl, sumYearDays_full]
  have hdays : t / 86400 < sumYearDays 1970 (1970 + yearFuel) := by
    rw [hfull]
    omega
  obtain ⟨hy1, hy2, hy3, hy4⟩ := yearFromDays_spec yearFuel 1970 (t / 86400) hdays
  set yd := yearFromDays yearFuel 1970 (t / 86400) with hyd
  have hmonth : monthsBeforeDays yd.1 1 + yd.2 < monthsBeforeDays yd.1 (1 + 12) := by
    rw [show (1 + 12 : Nat) = 13 from rfl, monthsBeforeDays_thirteen]
    simpa [monthsBeforeDays] using hy3
  obtain ⟨hm1, hm2, hm3, hm4⟩ := monthFromDays_spec yd.1 12 1 yd.2 (by omega) hmonth
  set md := monthFromDays 12 yd.1 1 yd.2 with hmd
  have hrem : t % 86400 < 86400 := Nat.mod_lt _ (by omega)
  have hsplit : 86400 * (t / 86400) + t % 86400 = t := Nat.div_add_mod t 86400
  have hsd : secsToDate t = (yd.1, md.1, md.2 + 1, t % 86400 / 3600,
      t % 86400 % 3600 / 60, t % 86400 % 60) := by
    rw [secsToDate]
  rw [hsd]
  simp only []
  have hmb : monthsBeforeDays yd.1 md.1 + md.2 = yd.2 := by
    simpa [monthsBeforeDays] using hm4
  refine ⟨by omega, by omega, by omega, by omega, by omega, ?_, by omega, by omega, by omega, ?_⟩
  · omega
  · rw [dateToSecs, daysFromEpochToYear, if_pos (by omega)]
    have harith : 3600 * (t % 86400 / 3600) + 60 * (t % 86400 % 3600 / 60) + t % 86400 % 60
        = t % 86400 := by omega
    push_cast
    have : ((yd.1 : Int)) = yd.1 := rfl
    have hcast : ((md.2 : Int) + 1 - 1) = (md.2 : Int) := by ring
    rw [hcast]
    have hdayseq : (sumYearDays 1970 yd.1 : Int) + (monthsBeforeDays yd.1 md.1 : Int) + (md.2 : Int)
        = ((t / 86400 : Nat) : Int) := by
      push_cast
      omega
    rw [hdayseq]
    push_cast
    omega

/-! ### Parsing the rendered string back -/

theorem digit_not_space {c : Char} (h : isAsciiDigit c = true) : isPySpace c = false := by
  cases hsp : isPySpace c
  · rfl
  · exfalso
    have hor : c = ' ' ∨ c = '\t' ∨ c = '\n' ∨ c = '\r' ∨ c = '\x0b' ∨ c = '\x0c' := by
      simpa [isPySpace] using hsp
    rcases hor with rfl | rfl | rfl | rfl | rfl | rfl <;> exact absurd h (by decide)

theorem digit_ne_U {c : Char} (h : isAsciiDigit c = true) : c ≠ 'U' := by
  intro heq
  subst heq
  exact absurd h (by decide)

theorem takeWhile_append_sep (p : Char → Bool) : ∀ (a : List Char) (c : Char) (r : List Char),
    (∀ x ∈ a, p x = true) → p c = false →
    ((a ++ c :: r).takeWhile p = a ∧ (a ++ c :: r).dropWhile p = c :: r) := by
  intro a
  induction a with
  | nil =>
    intro c r _ hc
    constructor <;> simp [List.takeWhile_cons, List.dropWhile_cons, hc]
  | cons x a ih =>
    intro c r ha hc
    have hx := ha x (by simp)
    obtain ⟨h1, h2⟩ := ih c r (fun z hz => ha z (by simp [hz])) hc
    constructor <;> simp [List.takeWhile_cons, List.dropWhile_cons, hx, h1, h2]

theorem takeWhile_all (p : Char → Bool) : ∀ (l : List Char), (∀ x ∈ l, p x = true) →
    (l.takeWhile p = l ∧ l.dropWhile p = []) := by
  intro l
  induction l with
  | nil => intro _; constructor <;> rfl
  | cons x l ih =>
    intro hl
    have hx := hl x (by simp)
    obtain ⟨h1, h2⟩ := ih (fun z hz => hl z (by simp [hz]))
    constructor <;> simp [List.takeWhile_cons, List.dropWhile_cons, hx, h1, h2]

theorem getLast?_append_singleton : ∀ (l : List Char) (a : Char), (l ++ [a]).getLast? = some a := by
  intro l a
  induction l with
  | nil => rfl
  | cons x l ih =>
    rw [List.cons_append]
    cases hl : l ++ [a] with
    | nil => exact absurd hl (by simp)
    | cons b r => rw [List.getLast?_cons_cons, ← hl, ih]

theorem parseNumField_sep (maxW : Nat) (ds : List Char) (c : Char) (rest : List Char)
    (hds : ∀ x ∈ ds, isAsciiDigit x = true) (hc : isAsciiDigit c = false)
    (h1 : 1 ≤ ds.length) (h2 : ds.length ≤ maxW) :
    parseNumField maxW (ds ++ c :: rest) = some (parseNatDigits ds, c :: rest) := by
  obtain ⟨ht, hd⟩ := takeWhile_append_sep isAsciiDigit ds c rest hds hc
  simp [parseNumField, ht, hd, h1, h2]

theorem parseNumField_all (maxW : Nat) (ds : List Char)
    (hds : ∀ x ∈ ds, isAsciiDigit x = true) (h1 : 1 ≤ ds.length) (h2 : ds.length ≤ maxW) :
    parseNumField maxW ds = some (parseNatDigits ds, []) := by
  obtain ⟨ht, hd⟩ := takeWhile_all isAsciiDigit ds hds
  simp [parseNumField, ht, hd, h1, h2]

theorem parseSep_cons (c : Char) (r : List Char) : parseSep c (c :: r) = some r := by
  simp [parseSep]

theorem parseWsRun_cons_digit (t : List Char) (c0 : Char) (h : t.head? = some c0)
    (hd : isAsciiDigit c0 = true) : parseWsRun (' ' :: t) = some t := by
  cases t with
  | nil => simp at h
  | cons b r =>
    have hb : b = c0 := by simpa using h
    subst hb
    have hbs : isPySpace b = false := digit_not_space hd
    have ht : (b :: r).takeWhile isPySpace = [] := by
      simp [List.takeWhile_cons, hbs]
    have hdw : (b :: r).dropWhile isPySpace = b :: r := by
      simp [List.dropWhile_cons, hbs]
    have hsp : isPySpace ' ' = true := by decide
    simp [parseWsRun, List.takeWhile_cons, List.dropWhile_cons, ht, hdw, hsp]

theorem list_len4 {α : Type} {l : List α} (h : l.length = 4) :
    ∃ a b c d, l = [a, b, c, d] := by
  rcases l with _ | ⟨a, l⟩
  · simp at h
  rcases l with _ | ⟨b, l⟩
  · simp at h
  rcases l with _ | ⟨c, l⟩
  · simp at h
  rcases l with _ | ⟨d, l⟩
  · simp at h
  rcases l with _ | ⟨e, l⟩
  · exact ⟨a, b, c, d, rfl⟩
  · simp at h

theorem parseYear4_pad (y : Nat) (rest : List Char) (hy : y < 10000) :
    parseYear4 (padNat 4 y ++ rest) = some (parseNatDigits (padNat 4 y), rest) := by
  have hlen : (padNat 4 y).length = 4 := padNat_length (by omega) (by omega)
  obtain ⟨a, b, c, d, habcd⟩ := list_len4 hlen
  have hdig := padNat_digits 4 y
  rw [habcd] at hdig ⊢
  have ha := hdig a (by simp)
  have hb := hdig b (by simp)
  have hc := hdig c (by simp)
  have hd := hdig d (by simp)
  simp [parseYear4, ha, hb, hc, hd]

theorem parseDayField_cons_ne_space (c0 : Char) (rest : List Char) (h : c0 ≠ ' ') :
    parseDayField (c0 :: rest) = parseNumField 2 (c0 :: rest) := by
  rw [parseDayField.eq_def]
  split
  · rename_i c r heq
    injection heq with h1 h2
    exact absurd h1 h
  · rfl

/-- The date-time part of the rendered watermark string (everything before
the trailing `" UTC"`). -/
def bodyChars (y mo d h mi s : Nat) : List Char :=
  padNat 4 y ++ '-' :: padNat 2 mo ++ '-' :: padNat 2 d ++ ' ' :: padNat 2 h
    ++ ':' :: padNat 2 mi ++ ':' :: padNat 2 s

theorem noU_append {l1 l2 : List Char} (h1 : ∀ c ∈ l1, c ≠ 'U') (h2 : ∀ c ∈ l2, c ≠ 'U') :
    ∀ c ∈ l1 ++ l2, c ≠ 'U' := by
  intro c hc
  rcases List.mem_append.mp hc with h | h
  · exact h1 c h
  · exact h2 c h

theorem noU_cons {a : Char} {l : List Char} (ha : a ≠ 'U') (hl : ∀ c ∈ l, c ≠ 'U') :
    ∀ c ∈ a :: l, c ≠ 'U' := by
  intro c hc
  rcases List.mem_cons.mp hc with rfl | h
  · exact ha
  · exact hl c h

theorem bodyChars_no_U (y mo d h mi s : Nat) : ∀ c ∈ bodyChars y mo d h mi s, c ≠ 'U' := by
  unfold bodyChars
  repeat
    first
      | exact fun c hc => digit_ne_U (padNat_digits _ _ c hc)
      | apply noU_append
      | apply noU_cons (by decide)

theorem parseUtcFields_body (y mo d h mi s : Nat) (hy : y < 10000) (hmo : mo < 100)
    (hd : d < 100) (hh : h < 100) (hmi : mi < 100) (hs : s < 100) :
    parseUtcFields (bodyChars y mo d h mi s) = some (y, mo, d, h, mi, s) := by
  have hylen : (padNat 4 y).length = 4 := padNat_length (by omega) (by omega)
  have hmolen : (padNat 2 mo).length = 2 := padNat_length (by omega) (by omega)
  have hdlen : (padNat 2 d).length = 2 := padNat_length (by omega) (by omega)
  have hhlen : (padNat 2 h).length = 2 := padNat_length (by omega) (by omega)
  have hmilen : (padNat 2 mi).length = 2 := padNat_length (by omega) (by omega)
  have hslen : (padNat 2 s).length = 2 := padNat_length (by omega) (by omega)
  have hstep1 := parseYear4_pad y
    ('-' :: (padNat 2 mo ++ '-' :: padNat 2 d ++ ' ' :: padNat 2 h ++ ':' :: padNat 2 mi
      ++ ':' :: padNat 2 s)) hy
  have hstep2 := parseNumField_sep 2 (padNat 2 mo) '-'
    (padNat 2 d ++ ' ' :: padNat 2 h ++ ':' :: padNat 2 mi ++ ':' :: padNat 2 s)
    (padNat_digits 2 mo) (by decide) (by omega) (by omega)
  obtain ⟨e0, es0, hpd⟩ : ∃ e0 es0, padNat 2 d = e0 :: es0 := by
    cases hpn : padNat 2 d with
    | nil => exact absurd hpn (padNat_ne_nil 2 d)
    | cons a b => exact ⟨a, b, rfl⟩
  have he0 : isAsciiDigit e0 = true := padNat_digits 2 d e0 (by rw [hpd]; simp)
  have he0ne : e0 ≠ ' ' := by
    intro hsp
    rw [hsp] at he0
    exact absurd he0 (by decide)
  have hstep3 : parseDayField
      (padNat 2 d ++ ' ' :: (padNat 2 h ++ ':' :: padNat 2 mi ++ ':' :: padNat 2 s)) =
      some (parseNatDigits (padNat 2 d),
        ' ' :: (padNat 2 h ++ ':' :: padNat 2 mi ++ ':' :: padNat 2 s)) := by
    rw [hpd, List.cons_append, parseDayField_cons_ne_space _ _ he0ne, ← List.cons_append, ← hpd]
    exact parseNumField_sep 2 (padNat 2 d) ' '
      (padNat 2 h ++ ':' :: padNat 2 mi ++ ':' :: padNat 2 s)
      (padNat_digits 2 d) (by decide) (by omega) (by omega)
  have hhead : (padNat 2 h ++ ':' :: padNat 2 mi ++ ':' :: padNat 2 s).head? =
      some ((padNat 2 h).headD ' ') := by
    cases hpn : padNat 2 h with
    | nil => exact absurd hpn (padNat_ne_nil 2 h)
    | cons a b => simp
  have hheadd : isAsciiDigit ((padNat 2 h).headD ' ') = true := by
    cases hpn : padNat 2 h with
    | nil => exact absurd hpn (padNat_ne_nil 2 h)
    | cons a b =>
      have : a ∈ padNat 2 h := by rw [hpn]; simp
      simpa [hpn] using padNat_digits 2 h a this
  have hstep4 := parseWsRun_cons_digit
    (padNat 2 h ++ ':' :: padNat 2 mi ++ ':' :: padNat 2 s) _ hhead hheadd
  have hstep5 := parseNumField_sep 2 (padNat 2 h) ':' (padNat 2 mi ++ ':' :: padNat 2 s)
    (padNat_digits 2 h) (by decide) (by omega) (by omega)
  have hstep6 := parseNumField_sep 2 (padNat 2 mi) ':' (padNat 2 s)
    (padNat_digits 2 mi) (by decide) (by omega) (by omega)
  have hstep7 := parseNumField_all 2 (padNat 2 s) (padNat_digits 2 s) (by omega) (by omega)
  simp only [List.append_assoc, List.cons_append] at hstep1 hstep2 hstep3 hstep4 hstep5 hstep6
  simp only [bodyChars, parseUtcFields, List.append_assoc, List.cons_append,
    hstep1, hstep2, hstep3, hstep4, hstep5, hstep6, hstep7,
    parseSep_cons, parseNatDigits_padNat, Option.bind_eq_bind, Option.some_bind]

theorem renderUtcChars_eq_body (t : Nat) {y mo d h mi s : Nat}
    (hsd : secsToDate t = (y, mo, d, h, mi, s)) :
    renderUtcChars t = bodyChars y mo d h mi s ++ [' ', 'U', 'T', 'C'] := by
  simp [renderUtcChars, hsd, bodyChars, List.append_assoc, List.cons_append]

set_option maxHeartbeats 1000000 in
theorem read_of_render (t : Nat) (ht : t < 253402300800) :
    read_last_open_time_ms (some (String.mk (renderUtcChars t))) = Except.ok (some (1000 * (t : Int))) := by
  obtain ⟨y, mo, d, h, mi, s, hsd⟩ : ∃ y mo d h mi s, secsToDate t = (y, mo, d, h, mi, s) :=
    ⟨_, _, _, _, _, _, rfl⟩
  have spec := secsToDate_spec t ht
  rw [hsd] at spec
  dsimp only at spec
  obtain ⟨h1970, h9999, hmo1, hmo12, hd1, hdm, hh23, hmi59, hs59, hsecs⟩ := spec
  have hdm31 : d ≤ 31 := le_trans hdm (daysInMonth_le y mo)
  have hbody := renderUtcChars_eq_body t hsd
  obtain ⟨c0, cs0, hpn⟩ : ∃ c0 cs0, padNat 4 y = c0 :: cs0 := by
    cases hpn : padNat 4 y with
    | nil => exact absurd hpn (padNat_ne_nil 4 y)
    | cons a b => exact ⟨a, b, rfl⟩
  have hc0 : isAsciiDigit c0 = true := by
    apply padNat_digits 4 y
    rw [hpn]
    simp
  have hshape : renderUtcChars t = c0 :: (cs0 ++ '-' :: padNat 2 mo ++ '-' :: padNat 2 d
      ++ ' ' :: padNat 2 h ++ ':' :: padNat 2 mi ++ ':' :: padNat 2 s ++ [' ', 'U', 'T', 'C']) := by
    rw [hbody, bodyChars, hpn]
    simp [List.append_assoc, List.cons_append]
  have hstrip : pyStripChars (renderUtcChars t) = renderUtcChars t := by
    apply pyStripChars_of_ends
    · intro c hc
      rw [hshape] at hc
      simp only [List.head?_cons, Option.some.injEq] at hc
      subst hc
      exact digit_not_space hc0
    · intro c hc
      have : renderUtcChars t = (bodyChars y mo d h mi s ++ [' ', 'U', 'T']) ++ ['C'] := by
        rw [hbody]
        simp [List.append_assoc]
      rw [this, getLast?_append_singleton] at hc
      injection hc with hc
      subst hc
      decide
  have hnonempty : (renderUtcChars t).isEmpty = false := by
    rw [hshape]
    rfl
  have hnodig : pyIsDigitChars (renderUtcChars t) = false := by
    have hmem : '-' ∈ renderUtcChars t := by
      rw [hbody, bodyChars]
      simp
    have hall : (renderUtcChars t).all isAsciiDigit = false := by
      cases hcase : (renderUtcChars t).all isAsciiDigit
      · rfl
      · rw [List.all_eq_true] at hcase
        exact absurd (hcase '-' hmem) (by decide)
    simp [pyIsDigitChars, hall]
  have hvalid : utcFieldsValid y mo d h mi s = true := by
    simp only [utcFieldsValid, Bool.and_eq_true, decide_eq_true_eq]
    omega
  have hutc : utc_str_to_ms (String.mk (renderUtcChars t)) = some (1000 * (t : Int)) := by
    have hdata : (String.mk (renderUtcChars t)).data = renderUtcChars t := rfl
    have hdrop : dropUtc (renderUtcChars t) = bodyChars y mo d h mi s := by
      rw [hbody]
      exact dropUtc_append_of_no_U _ (bodyChars_no_U y mo d h mi s)
    have hpars := parseUtcFields_body y mo d h mi s (by omega) (by omega) (by omega)
      (by omega) (by omega) (by omega)
    rw [utc_str_to_ms, hdata, hdrop, hpars]
    dsimp only
    rw [if_pos hvalid, hsecs]
  obtain ⟨L, hLe⟩ : ∃ L, renderUtcChars t = L := ⟨_, rfl⟩
  rw [hLe] at hstrip hnonempty hnodig hutc ⊢
  have hne1 : ¬(L.isEmpty = true) := by simp [hnonempty]
  have hne2 : ¬(pyIsDigitChars L = true) := by simp [hnodig]
  simp only [read_last_open_time_ms]
  rw [hstrip, if_neg hne1, if_neg hne2, hutc]

/-- Round trip used by several claims: writing the watermark for an
in-range `ms` and reading it back recovers `ms` truncated to whole
seconds. -/
theorem wm_roundtrip (ms : Int) (h0 : 0 ≤ ms) (h1 : ms < 253402300800000) :
    ∃ s, write_last_open_time_ms ms = some s ∧
      read_last_open_time_ms (some s) = Except.ok (some (1000 * (ms / 1000))) := by
  have hdiv0 : 0 ≤ ms / 1000 := by omega
  have hdivlt : ms / 1000 < maxUtcSecs := by
    rw [show maxUtcSecs = 253402300800 from rfl]
    omega
  have hw : write_last_open_time_ms ms = some (String.mk (renderUtcChars (ms / 1000).toNat)) := by
    rw [write_last_open_time_ms, ms_to_utc_str, if_pos ⟨h0, hdivlt⟩]
  refine ⟨_, hw, ?_⟩
  have htoNat : ((ms / 1000).toNat : Int) = ms / 1000 := Int.toNat_of_nonneg hdiv0
  have htlt : (ms / 1000).toNat < 253402300800 := by omega
  have := read_of_render (ms / 1000).toNat htlt
  rw [this, htoNat]

/-! ### Klines and the dataset file

A kline as `collector.py` consumes it: element 0 is the open time, 6 the
close time and 8 the trade count (the code applies `int(...)` to them);
the other consumed elements are serialized verbatim, so they are kept as
text.  The trailing twelfth element of an API record is ignored by
`kline_to_row` and is not modelled. -/

structure Kline where
  openTime : Int
  openPrice : String
  highPrice : String
  lowPrice : String
  closePrice : String
  volume : String
  closeTime : Int
  quoteVolume : String
  numTrades : Int
  takerBuyBase : String
  takerBuyQuote : String
deriving DecidableEq, Repr

/-- Model of Python `str(n)` for an integer. -/
def renderIntStr (n : Int) : String :=
  if n < 0 then String.mk ('-' :: renderNat (-n).toNat) else String.mk (renderNat n.toNat)

/-- Model of `kline_to_row` (collector.py lines 96-108). -/
def kline_to_row (k : Kline) : List String :=
  [renderIntStr k.openTime, k.openPrice, k.highPrice, k.lowPrice, k.closePrice, k.volume,
    renderIntStr k.closeTime, k.quoteVolume, renderIntStr k.numTrades,
    k.takerBuyBase, k.takerBuyQuote]

/-- The fixed header row (collector.py lines 22-34). -/
def CSV_HEADER : List String :=
  ["open_time_ms", "open", "high", "low", "close", "volume", "close_time_ms",
    "quote_asset_volume", "num_trades", "taker_buy_base", "taker_buy_quote"]

/-- The dataset file: `none` when `CSV_PATH` does not exist, otherwise the
list of its comma-separated rows (header row included). -/
abbrev CsvFile := Option (List (List String))

/-- Model of `csv_is_empty_or_missing` (collector.py lines 54-55). -/
def csv_is_empty_or_missing : CsvFile → Bool
  | none => true
  | some rows => rows.isEmpty

/-- Model of `ensure_csv_header` (collector.py lines 57-61): write the
header row (mode `"w"`, so the file becomes exactly the header) iff the
file is empty or missing. -/
def ensure_csv_header (csv : CsvFile) : CsvFile :=
  if csv_is_empty_or_missing csv then some [CSV_HEADER] else csv

/-- Model of `append_rows` (collector.py lines 110-114): no-op on an empty
row list (the file is not even created), otherwise append in order (mode
`"a"` creates the file when absent). -/
def append_rows (csv : CsvFile) (rows : List (List String)) : CsvFile :=
  if rows.isEmpty then csv else some (csv.getD [] ++ rows)

/-- Model of `filter_closed` (collector.py lines 116-118): the list
comprehension keeping the candles whose close time is at most `now_ms`. -/
def filter_closed : List Kline → Int → List Kline
  | [], _ => []
  | k :: ks, now =>
    if k.closeTime ≤ now then k :: filter_closed ks now else filter_closed ks now

/-- The two files the collector owns. -/
structure CollectorState where
  csv : CsvFile
  wm : Option String
deriving DecidableEq, Repr

/-- A record source: the page a successful `fetch_klines(start_ms)` call
returns for a given optional start parameter.  Transport failures abort
the run and are outside every claim here. -/
abbrev KlineSource := Option Int → List Kline

/-- Run-aborting exceptions of `main`. -/
inductive RunErr where
  | formatError
  | valueError
  | fuelExhausted
deriving DecidableEq, Repr

/-- Model of `update_incremental` (collector.py lines 157-178), instrumented
with the list of fetch start parameters issued (the code performs exactly
one `fetch_klines` call; the trace makes that provable).  Returns the new
state and the newest appended open time (`none` when nothing was new). -/
def update_incremental (src : KlineSource) (now : Int) (st : CollectorState) :
    List (Option Int) × Except RunErr (CollectorState × Option Int) :=
  match read_last_open_time_ms st.wm with
  | Except.error _ => ([], Except.error RunErr.formatError)
  | Except.ok lastOpen =>
    let start := lastOpen.map (fun w => w + 1)
    let klines := src start
    let closed := filter_closed klines now
    match closed with
    | [] => ([start], Except.ok (st, none))
    | c :: cs =>
      let rows := (c :: cs).map kline_to_row
      let st2 : CollectorState := { st with csv := append_rows st.csv rows }
      let newest := ((c :: cs).getLast (List.cons_ne_nil c cs)).openTime
      ([start], Except.ok (st2, some newest))

/-- The incremental phase as `main` drives it (collector.py lines 193-196):
`update_incremental`, then persist the returned open time as the new
watermark when one was produced. -/
def incremental_phase (src : KlineSource) (now : Int) (st : CollectorState) :
    List (Option Int) × Except RunErr (CollectorState × Option Int) :=
  match update_incremental src now st with
  | (tr, Except.error e) => (tr, Except.error e)
  | (tr, Except.ok (st2, none)) => (tr, Except.ok (st2, none))
  | (tr, Except.ok (st2, some n)) =>
    match write_last_open_time_ms n with
    | none => (tr, Except.error RunErr.valueError)
    | some s => (tr, Except.ok ({ st2 with wm := some s }, some n))

/-- Backfill lookback window in milliseconds: `DAYS_BACKFILL = 60` days. -/
def LOOKBACK_MS : Int := 60 * 24 * 60 * 60 * 1000

/-- One more step of fuel than the `while` loop of
`backfill_last_n_days` can iterate (the cursor strictly increases and the
loop stops once the cursor reaches `now`; see `backfill_loop_total`). -/
def backfillFuel : Nat := 5184000001

/-- Model of the `while True` loop of `backfill_last_n_days`
(collector.py lines 132-152).  `acc` accumulates the rows appended so far
(the code appends each page directly to the file; appending the
accumulated rows once at the end of the loop yields the same file).
`none` is the fuel-exhaustion marker, proved unreachable for the fuel used
by `backfill_last_n_days`. -/
def backfill_loop (src : KlineSource) (now : Int) :
    Nat → Int → Option Int → List (List String) → Option (List (List String) × Option Int)
  | 0, _, _, _ => none
  | f + 1, cursor, newest, acc =>
    match src (some cursor) with
    | [] => some (acc, newest)
    | k :: ks =>
      let closed := filter_closed (k :: ks) now
      let acc2 := acc ++ closed.map kline_to_row
      let newest2 := match closed.getLast? with
        | some c => some c.openTime
        | none => newest
      let lastOpen := ((k :: ks).getLast (List.cons_ne_nil k ks)).openTime
      if lastOpen ≤ cursor then some (acc2, newest2)
      else if now ≤ lastOpen + 1 then some (acc2, newest2)
      else backfill_loop src now f (lastOpen + 1) newest2 acc2

/-- Model of `backfill_last_n_days` (collector.py lines 120-155): the rows
appended during the loop together with the newest inserted open time. -/
def backfill_last_n_days (src : KlineSource) (now : Int) :
    Option (List (List String) × Option Int) :=
  backfill_loop src now backfillFuel (now - LOOKBACK_MS) none []

/-- The state produced by the incremental phase, discarding the returned
open time (what `main` keeps). -/
def run_incremental_of (src : KlineSource) (now : Int) (st : CollectorState) :
    Except RunErr CollectorState :=
  match incremental_phase src now st with
  | (_, Except.error e) => Except.error e
  | (_, Except.ok (st2, _)) => Except.ok st2

/-- Model of `main` (collector.py lines 180-196) for one invocation.
`now1` and `now2` are the two independent wall-clock snapshots taken by
the backfill and incremental phases. -/
def main_run (src : KlineSource) (now1 now2 : Int) (st0 : CollectorState) :
    Except RunErr CollectorState :=
  let st1 : CollectorState := { st0 with csv := ensure_csv_header st0.csv }
  match read_last_open_time_ms st1.wm with
  | Except.error _ => Except.error RunErr.formatError
  | Except.ok lastOpen =>
    if lastOpen.isNone || csv_is_empty_or_missing st1.csv then
      match backfill_last_n_days src now1 with
      | none => Except.error RunErr.fuelExhausted
      | some (acc, newest) =>
        let st2 : CollectorState := { st1 with csv := append_rows st1.csv acc }
        match newest with
        | none => run_incremental_of src now2 st2
        | some n =>
          match write_last_open_time_ms n with
          | none => Except.error RunErr.valueError
          | some s => run_incremental_of src now2 { st2 with wm := some s }
    else run_incremental_of src now2 st1

/-- A sequence of `main` invocations; each run sees the source and clock
snapshots of its moment. -/
def run_sequence : List (KlineSource × Int × Int) → CollectorState → Except RunErr CollectorState
  | [], st => Except.ok st
  | (src, n1, n2) :: rest, st =>
    match main_run src n1 n2 st with
    | Except.error e => Except.error e
    | Except.ok st2 => run_sequence rest st2

/-- Modelled from the spec (section 4.1, external collaborator): a remote
source backed by a fixed ascending record universe; a query with a start
bound returns the first page of records at or after it, a query without
returns the most recent page.  `LIMIT = 1000`. -/
def fetchFrom (univ : List Kline) : KlineSource :=
  fun start =>
    match start with
    | some s2 => (univ.filter (fun k => s2 ≤ k.openTime)).take 1000
    | none => univ.drop (univ.length - 1000)

/-! ### The migration utility (migrate_inline.py) -/

/-- Outcome of one execution of the migration script. -/
inductive MigOutcome where
  | missingFile
  | emptyFile
  | alreadyMigrated
  | badRow
  | migrated
deriving DecidableEq, Repr

/-- Model of Python `int(s)` on a string: optional surrounding whitespace,
optional sign, decimal digits. -/
def pyIntOfString (s : String) : Option Int :=
  match pyStripChars s.data with
  | '-' :: ds => if pyIsDigitChars ds then some (-(parseNatDigits ds : Int)) else none
  | '+' :: ds => if pyIsDigitChars ds then some ((parseNatDigits ds : Int)) else none
  | ds => if pyIsDigitChars ds then some ((parseNatDigits ds : Int)) else none

/-- Model of the per-row rewrite (migrate_inline.py line 33):
`row[:1] + [ms_to_utc_str(int(row[0]))] + row[1:]`; `none` models the
`IndexError`/`ValueError` crashes on a malformed row. -/
def migrate_row (row : List String) : Option (List String) :=
  match row with
  | [] => none
  | f :: rest =>
    match pyIntOfString f with
    | none => none
    | some n =>
      match ms_to_utc_str n with
      | none => none
      | some u => some (f :: u :: rest)

/-- The row loop of migrate_inline.py (lines 31-34): rewrite every row in
order; `none` when some row raises. -/
def migrate_rows : List (List String) → Option (List (List String))
  | [] => some []
  | r :: rs =>
    match migrate_row r with
    | none => none
    | some r2 =>
      match migrate_rows rs with
      | none => none
      | some rs2 => some (r2 :: rs2)

/-- Model of one execution of migrate_inline.py on the dataset file.
Returns the outcome and the dataset file afterwards.  The temporary file
is written first and `os.replace` installs it only on full success, so on
every non-`migrated` outcome the dataset file is unchanged. -/
def migrate_run (file : CsvFile) : MigOutcome × CsvFile :=
  match file with
  | none => (MigOutcome.missingFile, none)
  | some [] => (MigOutcome.emptyFile, some [])
  | some (header :: rows) =>
    if "open_time_utc" ∈ header then (MigOutcome.alreadyMigrated, some (header :: rows))
    else
      match migrate_rows rows with
      | none => (MigOutcome.badRow, some (header :: rows))
      | some rows2 =>
        let header2 := header.take 1 ++ ["open_time_utc"] ++ header.drop 1
        (MigOutcome.migrated, some (header2 :: rows2))

/-! ### Observations on the dataset file -/

/-- The data rows of the dataset file (everything after the header row). -/
def data_rows : CsvFile → List (List String)
  | some (_ :: rows) => rows
  | _ => []

/-- The open-time value recorded in a data row (its first field). -/
def row_open_ms (row : List String) : Int :=
  match row with
  | [] => 0
  | f :: _ => (pyIntOfString f).getD 0

/-- The open-time column of the dataset file, in file order. -/
def data_opens (csv : CsvFile) : List Int := (data_rows csv).map row_open_ms

deriving instance DecidableEq for Except

/-! ### Claim theorems -/

theorem filter_closed_eq_filter (records : List Kline) (now_ms : Int) :
    filter_closed records now_ms = records.filter (fun k => k.closeTime ≤ now_ms) := by
  induction records with
  | nil => rfl
  | cons k ks ih =>
    by_cases hk : k.closeTime ≤ now_ms <;>
      simp [filter_closed, List.filter_cons, hk, ih]

/-- C2: the closed-record filter returns exactly the subsequence of the
input whose close_time is at most now_ms, in input order (it equals
`List.filter`, is a sublist of the input, and contains precisely the
records with `closeTime ≤ now_ms`).  It is a total function on its
arguments: no side effects and no failure modes. -/
theorem filter_closed_spec (records : List Kline) (now_ms : Int) :
    filter_closed records now_ms = records.filter (fun k => k.closeTime ≤ now_ms) ∧
      (filter_closed records now_ms).Sublist records ∧
      (∀ k, k ∈ filter_closed records now_ms ↔ k ∈ records ∧ k.closeTime ≤ now_ms) := by
  have heq := filter_closed_eq_filter records now_ms
  refine ⟨heq, ?_, ?_⟩
  · rw [heq]
    exact List.filter_sublist records
  · intro k
    rw [heq, List.mem_filter]
    simp

/-- C8: store initialization writes the header row iff the dataset file is
absent or zero-length, leaves a non-empty file byte-for-byte unchanged,
and is idempotent. -/
theorem ensure_csv_header_spec (csv : CsvFile) :
    (csv_is_empty_or_missing csv = true → ensure_csv_header csv = some [CSV_HEADER]) ∧
      (csv_is_empty_or_missing csv = false → ensure_csv_header csv = csv) ∧
      ensure_csv_header (ensure_csv_header csv) = ensure_csv_header csv := by
  by_cases hc : csv_is_empty_or_missing csv = true
  · refine ⟨fun _ => ?_, fun hfalse => ?_, ?_⟩
    · simp [ensure_csv_header, hc]
    · rw [hc] at hfalse
      exact absurd hfalse (by simp)
    · rw [show ensure_csv_header csv = some [CSV_HEADER] from by simp [ensure_csv_header, hc]]
      decide
  · refine ⟨fun htrue => absurd htrue hc, fun _ => ?_, ?_⟩
    · simp [ensure_csv_header, hc]
    · simp [ensure_csv_header, hc]

/-- Witness for `ensure_csv_header_spec` at the absent file. -/
theorem ensure_csv_header_spec_witness :
    csv_is_empty_or_missing none = true ∧ ensure_csv_header none = some [CSV_HEADER] :=
  ⟨rfl, (ensure_csv_header_spec none).1 rfl⟩

theorem update_incremental_fetches (src : KlineSource) (now : Int) (st : CollectorState)
    (w : Option Int) (hw : read_last_open_time_ms st.wm = Except.ok w) :
    (update_incremental src now st).1 = [w.map (fun x => x + 1)] := by
  simp only [update_incremental, hw]
  rcases hfc : filter_closed (src (w.map fun x => x + 1)) now with _ | ⟨c, cs⟩ <;>
    simp [hfc]

/-- C3: a watermark file holding the digit string `"1700000000000"` and one
holding `"2023-11-14 22:13:20 UTC"` are read as the same millisecond
instant, and the incremental phase consequently issues its single fetch
with the identical start parameter `1700000000001` in both cases. -/
theorem watermark_format_compat :
    read_last_open_time_ms (some "1700000000000") = Except.ok (some 1700000000000) ∧
      read_last_open_time_ms (some "2023-11-14 22:13:20 UTC") = Except.ok (some 1700000000000) ∧
      ∀ (src : KlineSource) (now : Int) (csv : CsvFile),
        (update_incremental src now ⟨csv, some "1700000000000"⟩).1 = [some 1700000000001] ∧
        (update_incremental src now ⟨csv, some "2023-11-14 22:13:20 UTC"⟩).1 = [some 1700000000001] := by
  have h1 : read_last_open_time_ms (some "1700000000000") = Except.ok (some 1700000000000) := by
    decide
  have h2 : read_last_open_time_ms (some "2023-11-14 22:13:20 UTC") =
      Except.ok (some 1700000000000) := by decide
  refine ⟨h1, h2, fun src now csv => ⟨?_, ?_⟩⟩
  · have := update_incremental_fetches src now ⟨csv, some "1700000000000"⟩ (some 1700000000000) h1
    simpa using this
  · have := update_incremental_fetches src now ⟨csv, some "2023-11-14 22:13:20 UTC"⟩
      (some 1700000000000) h2
    simpa using this

/-- Strict well-formedness of a watermark string in the exact shape the
claim names, `YYYY-MM-DD HH:MM:SS UTC`: fixed-width digit fields, the
literal separators, the literal ` UTC` suffix, and calendar-valid field
values.  Stated from the spec wording, independently of the code path
(which strips ` UTC` occurrences anywhere and accepts variable-width
fields). -/
def wf_utc_string (s : String) : Bool :=
  match s.data with
  | [y1, y2, y3, y4, c1, m1, m2, c2, d1, d2, c3, h1, h2, c4, i1, i2, c5, s1, s2, c6, u1, u2, u3] =>
    ([y1, y2, y3, y4, m1, m2, d1, d2, h1, h2, i1, i2, s1, s2].all isAsciiDigit) &&
      (c1 = '-') && (c2 = '-') && (c3 = ' ') && (c4 = ':') && (c5 = ':') &&
      (c6 = ' ') && (u1 = 'U') && (u2 = 'T') && (u3 = 'C') &&
      utcFieldsValid (parseNatDigits [y1, y2, y3, y4]) (parseNatDigits [m1, m2])
        (parseNatDigits [d1, d2]) (parseNatDigits [h1, h2])
        (parseNatDigits [i1, i2]) (parseNatDigits [s1, s2])
  | _ => false

/-- C4 (amended): `read_last_open_time_ms` returns absent when the file is
missing or its whitespace-stripped content is empty; the integer value
when the stripped content is purely numeric; the millisecond conversion
when the stripped content parses after removing every `" UTC"`
occurrence; and raises `FormatError` exactly when the stripped content is
non-empty, non-numeric and that parse fails.  The final two conjuncts pin
the `strptime` width rules down on concrete inputs: a three-digit year is
rejected (`%Y` is exactly four digits) while a day written as a blank
followed by a single nonzero digit is accepted (the `' [1-9]'`
alternative of `%d`). -/
theorem read_watermark_cases (file : Option String) :
    (file = none → read_last_open_time_ms file = Except.ok none) ∧
      (∀ s, file = some s → pyStripChars s.data = [] →
        read_last_open_time_ms file = Except.ok none) ∧
      (∀ s, file = some s → pyIsDigitChars (pyStripChars s.data) = true →
        read_last_open_time_ms file = Except.ok (some (parseNatDigits (pyStripChars s.data) : Int))) ∧
      (∀ s v, file = some s → pyIsDigitChars (pyStripChars s.data) = false →
        utc_str_to_ms (String.mk (pyStripChars s.data)) = some v →
        read_last_open_time_ms file = Except.ok (some v)) ∧
      (∀ s, file = some s →
        (read_last_open_time_ms file = Except.error WmErr.formatError ↔
          pyStripChars s.data ≠ [] ∧ pyIsDigitChars (pyStripChars s.data) = false ∧
            utc_str_to_ms (String.mk (pyStripChars s.data)) = none)) ∧
      read_last_open_time_ms (some "999-01-01 00:00:00 UTC") =
        Except.error WmErr.formatError ∧
      read_last_open_time_ms (some "2023-11- 4 22:13:20 UTC") =
        Except.ok (some 1699136000000) := by
  refine ⟨?_, ?_, ?_, ?_, ?_, by decide, by decide⟩
  · intro h
    subst h
    rfl
  · intro s hf hL
    subst hf
    simp [read_last_open_time_ms, hL]
  · intro s hf hd
    subst hf
    have hne : (pyStripChars s.data).isEmpty = false := by
      rcases hpc : pyStripChars s.data with _ | ⟨c, cs⟩
      · rw [hpc] at hd
        exact absurd hd (by decide)
      · rfl
    simp [read_last_open_time_ms, hne, hd]
  · intro s v hf hd hu
    subst hf
    have hne : (pyStripChars s.data).isEmpty = false := by
      rcases hpc : pyStripChars s.data with _ | ⟨c, cs⟩
      · rw [hpc] at hu
        rw [show utc_str_to_ms (String.mk ([] : List Char)) = none from by decide] at hu
        exact absurd hu (by simp)
      · rfl
    simp [read_last_open_time_ms, hne, hd, hu]
  · intro s hf
    subst hf
    constructor
    · intro herr
      by_cases hL : (pyStripChars s.data).isEmpty = true
      · simp [read_last_open_time_ms, hL] at herr
      · by_cases hd : pyIsDigitChars (pyStripChars s.data) = true
        · simp [read_last_open_time_ms, hL, hd] at herr
        · rcases hu : utc_str_to_ms (String.mk (pyStripChars s.data)) with _ | v
          · refine ⟨?_, by simpa using hd, rfl⟩
            intro hnil
            rw [hnil] at hL
            exact hL rfl
          · simp [read_last_open_time_ms, hL, hd, hu] at herr
    · rintro ⟨hne, hd, hu⟩
      have hLe : (pyStripChars s.data).isEmpty = false := by
        rcases hpc : pyStripChars s.data with _ | ⟨c, cs⟩
        · exact absurd hpc hne
        · rfl
      simp [read_last_open_time_ms, hLe, hd, hu]

/-- Witness for `read_watermark_cases`: the numeric branch at content
`"42"`. -/
theorem read_watermark_cases_witness :
    read_last_open_time_ms (some "42") =
      Except.ok (some (parseNatDigits (pyStripChars ("42" : String).data) : Int)) :=
  (read_watermark_cases (some "42")).2.2.1 "42" rfl (by decide)

/-- C4 counterexample: a watermark file containing a single blank is
non-empty and matches neither a digit string nor a well-formed
`YYYY-MM-DD HH:MM:SS UTC` string, yet the code returns absent instead of
failing with a FormatError (the content is stripped before the empty
check). -/
theorem read_watermark_whitespace_cex :
    (" " : String) ≠ "" ∧ pyIsDigitChars (" " : String).data = false ∧
      wf_utc_string " " = false ∧ read_last_open_time_ms (some " ") = Except.ok none := by
  refine ⟨by decide, by decide, by decide, by decide⟩

theorem backfill_loop_total (src : KlineSource) (now : Int) :
    ∀ f cursor newest acc, (now - cursor).toNat < f →
      backfill_loop src now f cursor newest acc ≠ none := by
  intro f
  induction f with
  | zero => intro cursor newest acc h; omega
  | succ f ih =>
    intro cursor newest acc h
    simp only [backfill_loop]
    rcases hsrc : src (some cursor) with _ | ⟨k, ks⟩
    · simp
    · simp only []
      by_cases h1 : ((k :: ks).getLast (List.cons_ne_nil k ks)).openTime ≤ cursor
      · simp [h1]
      · by_cases h2 : now ≤ ((k :: ks).getLast (List.cons_ne_nil k ks)).openTime + 1
        · simp [h1, h2]
        · simp only [if_neg h1, if_neg h2]
          exact ih _ _ _ (by omega)

/-- C5: for every record source the backfill loop terminates (its fuel
never runs out), and on a non-advancing first page — the page's last open
time does not exceed the initial cursor — it stops after that single page,
returning the rows and newest open time accepted from it. -/
theorem backfill_terminates :
    (∀ (src : KlineSource) (now : Int), backfill_last_n_days src now ≠ none) ∧
      ∀ (src : KlineSource) (now : Int) (k : Kline) (ks : List Kline),
        src (some (now - LOOKBACK_MS)) = k :: ks →
        ((k :: ks).getLast (List.cons_ne_nil k ks)).openTime ≤ now - LOOKBACK_MS →
        backfill_last_n_days src now =
          some ((filter_closed (k :: ks) now).map kline_to_row,
            ((filter_closed (k :: ks) now).getLast?).map Kline.openTime) := by
  have hlook : LOOKBACK_MS = 5184000000 := by decide
  constructor
  · intro src now
    apply backfill_loop_total
    rw [show backfillFuel = 5184000001 from rfl]
    omega
  · intro src now k ks hsrc hlast
    rw [backfill_last_n_days, show backfillFuel = 5184000000 + 1 from rfl,
      backfill_loop, hsrc]
    simp only []
    rw [if_pos hlast]
    rcases hgl : (filter_closed (k :: ks) now).getLast? with _ | c <;> simp [hgl]

/-- A single candle used by concrete scenarios: opens at 100 ms, closes at
150 ms. -/
def kNonAdvancing : Kline := ⟨100, "1", "2", "0", "1", "3", 150, "4", 5, "6", "7"⟩

/-- Witness for `backfill_terminates`: a source that always echoes the
same page whose last open time equals the initial cursor. -/
theorem backfill_terminates_witness :
    backfill_last_n_days (fun _ => [kNonAdvancing]) 5184000100 =
      some ((filter_closed [kNonAdvancing] 5184000100).map kline_to_row,
        ((filter_closed [kNonAdvancing] 5184000100).getLast?).map Kline.openTime) :=
  backfill_terminates.2 (fun _ => [kNonAdvancing]) 5184000100 kNonAdvancing [] rfl (by decide)

/-- C10 (amended): for every ms with `0 ≤ ms < 253402300800000` (the range
`datetime` can represent, up to year 9999), writing the watermark and
reading it back yields `(ms / 1000) * 1000`: the UTC-string encoding
truncates sub-second precision, so the round trip is the identity exactly
when ms is a whole number of seconds and otherwise recovers a strictly
smaller value. -/
theorem write_read_roundtrip (ms : Int) (h0 : 0 ≤ ms) (h1 : ms < 253402300800000) :
    ∃ s, write_last_open_time_ms ms = some s ∧
      read_last_open_time_ms (some s) = Except.ok (some (1000 * (ms / 1000))) ∧
      (1000 * (ms / 1000) = ms ↔ (1000 : Int) ∣ ms) ∧
      (¬(1000 : Int) ∣ ms → 1000 * (ms / 1000) < ms) := by
  obtain ⟨s, hw, hr⟩ := wm_roundtrip ms h0 h1
  refine ⟨s, hw, hr, ⟨fun he => ⟨ms / 1000, by omega⟩, ?_⟩, ?_⟩
  · rintro ⟨c, hc⟩
    omega
  · intro hnd
    have hm : ¬(ms % 1000 = 0) := fun h => hnd (Int.dvd_of_emod_eq_zero h)
    omega

/-- C10 counterexample: at `ms = 253402300800000` (the first instant of
year 10000) `write_last_open_time_ms` itself raises — `datetime`
represents years only up to 9999 — so "for every non-negative ms the
write-then-read round trip returns (ms / 1000) * 1000" is false: there is
no round-trip value at all for this non-negative ms. -/
theorem write_read_roundtrip_cex :
    (0 : Int) ≤ 253402300800000 ∧ write_last_open_time_ms 253402300800000 = none :=
  ⟨by decide, by decide⟩

/-- Witness for `write_read_roundtrip` at `ms = 1700000000123`. -/
theorem write_read_roundtrip_witness :
    ∃ s, write_last_open_time_ms 1700000000123 = some s ∧
      read_last_open_time_ms (some s) = Except.ok (some (1000 * ((1700000000123 : Int) / 1000))) ∧
      (1000 * ((1700000000123 : Int) / 1000) = 1700000000123 ↔ (1000 : Int) ∣ 1700000000123) ∧
      (¬(1000 : Int) ∣ 1700000000123 → 1000 * ((1700000000123 : Int) / 1000) < 1700000000123) :=
  write_read_roundtrip 1700000000123 (by decide) (by decide)

/-- C9: on a dataset file whose header lacks the `open_time_utc` marker and
whose rows all rewrite successfully, the migration utility rewrites the
file once — inserting the UTC column right after the open_time column of
the header and of every row — and a second execution detects the marker
in the new header and leaves the file unchanged; on a missing file it
fails immediately with no action taken. -/
theorem migrate_twice (header : List String) (rows rows2 : List (List String))
    (hno : "open_time_utc" ∉ header)
    (hrows : migrate_rows rows = some rows2) :
    migrate_run (some (header :: rows)) =
        (MigOutcome.migrated, some ((header.take 1 ++ ["open_time_utc"] ++ header.drop 1) :: rows2)) ∧
      migrate_run (migrate_run (some (header :: rows))).2 =
        (MigOutcome.alreadyMigrated, (migrate_run (some (header :: rows))).2) ∧
      migrate_run none = (MigOutcome.missingFile, none) := by
  have h1 : migrate_run (some (header :: rows)) =
      (MigOutcome.migrated,
        some ((header.take 1 ++ ["open_time_utc"] ++ header.drop 1) :: rows2)) := by
    simp [migrate_run, hno, hrows]
  refine ⟨h1, ?_, rfl⟩
  rw [h1]
  have hmem : "open_time_utc" ∈ header.take 1 ++ ["open_time_utc"] ++ header.drop 1 := by
    simp
  simp [migrate_run, hmem]

/-- Witness for `migrate_twice`: one data row produced by the collector. -/
theorem migrate_twice_witness :
    migrate_run (some [CSV_HEADER, kline_to_row kNonAdvancing]) =
      (MigOutcome.migrated, some ((CSV_HEADER.take 1 ++ ["open_time_utc"] ++ CSV_HEADER.drop 1) ::
        [["100", "1970-01-01 00:00:00 UTC", "1", "2", "0", "1", "3", "150", "4", "5", "6", "7"]])) :=
  (migrate_twice CSV_HEADER [kline_to_row kNonAdvancing]
    [["100", "1970-01-01 00:00:00 UTC", "1", "2", "0", "1", "3", "150", "4", "5", "6", "7"]]
    (by decide) (by decide)).1

theorem pairwise_last_max :
    ∀ (l : List Kline), List.Pairwise (fun a b => a.openTime < b.openTime) l →
      ∀ (hne : l ≠ []) (k : Kline), k ∈ l → k.openTime ≤ (l.getLast hne).openTime := by
  intro l
  induction l with
  | nil => intro _ hne; exact absurd rfl hne
  | cons a t ih =>
    intro hl hne k hk
    cases t with
    | nil =>
      rcases List.mem_cons.mp hk with rfl | hk2
      · simp [List.getLast]
      · simp at hk2
    | cons b t2 =>
      have hlast : ((a :: b :: t2).getLast hne) = ((b :: t2).getLast (List.cons_ne_nil b t2)) :=
        List.getLast_cons (List.cons_ne_nil b t2)
      rcases List.mem_cons.mp hk with rfl | hk2
      · have hmem : ((b :: t2).getLast (List.cons_ne_nil b t2)) ∈ b :: t2 :=
          List.getLast_mem (List.cons_ne_nil b t2)
        have hlt := (List.pairwise_cons.mp hl).1 _ hmem
        rw [hlast]
        omega
      · have := ih (List.pairwise_cons.mp hl).2 (List.cons_ne_nil b t2) k hk2
        rw [hlast]
        exact this

/-- C7: when the watermark file reads as `w`, the incremental phase issues
exactly one fetch, with start parameter `w + 1` when the watermark is
present and absent otherwise; if the closed subset of the fetched page is
empty it returns absent with both files untouched; otherwise it appends
exactly the closed records and returns the open time of the last closed
record — the newest appended one for a source honouring the ascending
order contract. -/
theorem incremental_phase_spec (src : KlineSource) (now : Int) (st : CollectorState)
    (w : Option Int) (hw : read_last_open_time_ms st.wm = Except.ok w) :
    (update_incremental src now st).1 = [w.map (fun x => x + 1)] ∧
      (filter_closed (src (w.map (fun x => x + 1))) now = [] →
        update_incremental src now st = ([w.map (fun x => x + 1)], Except.ok (st, none)) ∧
          incremental_phase src now st = ([w.map (fun x => x + 1)], Except.ok (st, none))) ∧
      ∀ c cs, filter_closed (src (w.map (fun x => x + 1))) now = c :: cs →
        update_incremental src now st =
            ([w.map (fun x => x + 1)],
              Except.ok ({ st with csv := append_rows st.csv ((c :: cs).map kline_to_row) },
                some (((c :: cs).getLast (List.cons_ne_nil c cs)).openTime))) ∧
          (List.Pairwise (fun a b => a.openTime < b.openTime) (src (w.map (fun x => x + 1))) →
            ∀ k ∈ c :: cs, k.openTime ≤ ((c :: cs).getLast (List.cons_ne_nil c cs)).openTime) := by
  refine ⟨update_incremental_fetches src now st w hw, ?_, ?_⟩
  · intro hempty
    have hupd : update_incremental src now st = ([w.map (fun x => x + 1)], Except.ok (st, none)) := by
      simp only [update_incremental, hw, hempty]
    exact ⟨hupd, by simp only [incremental_phase, hupd]⟩
  · intro c cs hclosed
    have hupd : update_incremental src now st =
        ([w.map (fun x => x + 1)],
          Except.ok ({ st with csv := append_rows st.csv ((c :: cs).map kline_to_row) },
            some (((c :: cs).getLast (List.cons_ne_nil c cs)).openTime))) := by
      simp only [update_incremental, hw, hclosed]
    refine ⟨hupd, ?_⟩
    intro hsorted k hk
    have hsub : (filter_closed (src (w.map (fun x => x + 1))) now).Sublist
        (src (w.map (fun x => x + 1))) := by
      rw [filter_closed_eq_filter]
      exact List.filter_sublist _
    have hpc : List.Pairwise (fun a b => a.openTime < b.openTime) (c :: cs) := by
      rw [← hclosed]
      exact List.Pairwise.sublist hsub hsorted
    exact pairwise_last_max (c :: cs) hpc (List.cons_ne_nil c cs) k hk

/-- A state whose watermark file reads as 0 ms, used by concrete
scenarios. -/
def stIncW : CollectorState := ⟨some [CSV_HEADER], some "1970-01-01 00:00:00 UTC"⟩

/-- Witness for `incremental_phase_spec`: the single fetch uses start 1 on
a watermark of 0. -/
theorem incremental_phase_spec_witness :
    (update_incremental (fun _ => [kNonAdvancing]) 1000 stIncW).1 =
      [(some (0 : Int)).map (fun x => x + 1)] :=
  (incremental_phase_spec (fun _ => [kNonAdvancing]) 1000 stIncW (some 0) (by decide)).1

theorem update_incremental_empty (src : KlineSource) (now : Int) (st : CollectorState)
    (w : Option Int) (hw : read_last_open_time_ms st.wm = Except.ok w)
    (hempty : filter_closed (src (w.map (fun x => x + 1))) now = []) :
    incremental_phase src now st = ([w.map (fun x => x + 1)], Except.ok (st, none)) := by
  have hupd : update_incremental src now st = ([w.map (fun x => x + 1)], Except.ok (st, none)) := by
    simp only [update_incremental, hw, hempty]
  simp only [incremental_phase, hupd]

theorem incremental_phase_append (src : KlineSource) (now : Int) (st : CollectorState)
    (w : Option Int) (c : Kline) (cs : List Kline) (s2 : String)
    (hw : read_last_open_time_ms st.wm = Except.ok w)
    (hclosed : filter_closed (src (w.map (fun x => x + 1))) now = c :: cs)
    (hwrite : write_last_open_time_ms (((c :: cs).getLast (List.cons_ne_nil c cs)).openTime)
      = some s2) :
    incremental_phase src now st = ([w.map (fun x => x + 1)],
      Except.ok (⟨append_rows st.csv ((c :: cs).map kline_to_row), some s2⟩,
        some (((c :: cs).getLast (List.cons_ne_nil c cs)).openTime))) := by
  have hupd : update_incremental src now st =
      ([w.map (fun x => x + 1)],
        Except.ok ({ st with csv := append_rows st.csv ((c :: cs).map kline_to_row) },
          some (((c :: cs).getLast (List.cons_ne_nil c cs)).openTime))) := by
    simp only [update_incremental, hw, hclosed]
  simp only [incremental_phase, hupd, hwrite]

theorem mem_filter_closed {kl : List Kline} {now : Int} {k : Kline} :
    k ∈ filter_closed kl now ↔ k ∈ kl ∧ k.closeTime ≤ now := by
  rw [filter_closed_eq_filter, List.mem_filter]
  simp

theorem fetchFrom_sublist (univ : List Kline) (st : Option Int) :
    (fetchFrom univ st).Sublist univ := by
  cases st with
  | some s => exact (List.take_sublist 1000 _).trans (List.filter_sublist univ)
  | none => exact List.drop_sublist _ _

theorem fetchFrom_some_eq (univ : List Kline) (s : Int)
    (hlen : (univ.filter (fun k => s ≤ k.openTime)).length ≤ 1000) :
    fetchFrom univ (some s) = univ.filter (fun k => s ≤ k.openTime) := by
  simp only [fetchFrom]
  exact List.take_of_length_le hlen

theorem fetchFrom_some_subset (univ : List Kline) (s : Int) {k : Kline}
    (hk : k ∈ fetchFrom univ (some s)) :
    k ∈ univ ∧ s ≤ k.openTime := by
  simp only [fetchFrom] at hk
  have := List.mem_filter.mp (List.take_subset _ _ hk)
  exact ⟨this.1, by simpa using this.2⟩

theorem fetchFrom_none_eq (univ : List Kline) (hlen : univ.length ≤ 1000) :
    fetchFrom univ none = univ := by
  simp only [fetchFrom]
  rw [show univ.length - 1000 = 0 from by omega]
  exact List.drop_zero _

/-- C6 (amended): with a fixed upstream universe of time-ordered records
whose open times are whole-second multiples and whose pending portion fits
in one page — the records past the watermark the first run starts from, or
the whole universe when no watermark is set — running the incremental
phase a second time when no additional record has closed since the first
run appends zero rows and returns the first run's state unchanged —
watermark file included. -/
theorem incremental_idempotent (univ : List Kline) (now1 now2 : Int)
    (st0 st1 : CollectorState) (r1 : Option Int)
    (hsorted : List.Pairwise (fun a b => a.openTime < b.openTime) univ)
    (haligned : ∀ k ∈ univ, 0 ≤ k.openTime ∧ k.openTime < 253402300800000 ∧
      k.openTime % 1000 = 0)
    (hpend : ∀ w0, read_last_open_time_ms st0.wm = Except.ok (some w0) →
      (univ.filter (fun k => w0 + 1 ≤ k.openTime)).length ≤ 1000)
    (hpend0 : read_last_open_time_ms st0.wm = Except.ok none → univ.length ≤ 1000)
    (hnonew : ∀ k ∈ univ, k.closeTime ≤ now2 → k.closeTime ≤ now1)
    (h1 : (incremental_phase (fetchFrom univ) now1 st0).2 = Except.ok (st1, r1)) :
    (incremental_phase (fetchFrom univ) now2 st1).2 = Except.ok (st1, none) := by
  cases hread0 : read_last_open_time_ms st0.wm with
  | error e =>
    simp only [incremental_phase, update_incremental, hread0] at h1
    exact absurd h1 (by simp)
  | ok w0 =>
    cases hcl1 : filter_closed (fetchFrom univ (w0.map (fun x => x + 1))) now1 with
    | nil =>
      have hph := update_incremental_empty (fetchFrom univ) now1 st0 w0 hread0 hcl1
      rw [hph] at h1
      simp only [Except.ok.injEq, Prod.mk.injEq] at h1
      obtain ⟨h1a, -⟩ := h1
      subst h1a
      have hcl2 : filter_closed (fetchFrom univ (w0.map (fun x => x + 1))) now2 = [] := by
        rw [List.eq_nil_iff_forall_not_mem]
        intro k hk
        obtain ⟨hkp, hkc⟩ := mem_filter_closed.mp hk
        have hku : k ∈ univ := (fetchFrom_sublist univ _).subset hkp
        have hkc1 : k.closeTime ≤ now1 := hnonew k hku hkc
        have : k ∈ filter_closed (fetchFrom univ (w0.map (fun x => x + 1))) now1 :=
          mem_filter_closed.mpr ⟨hkp, hkc1⟩
        rw [hcl1] at this
        simp at this
      have := update_incremental_empty (fetchFrom univ) now2 st0 w0 hread0 hcl2
      rw [this]
    | cons c cs =>
      have hlastmem : ((c :: cs).getLast (List.cons_ne_nil c cs)) ∈ c :: cs :=
        List.getLast_mem (List.cons_ne_nil c cs)
      have hlastcl : ((c :: cs).getLast (List.cons_ne_nil c cs)) ∈
          filter_closed (fetchFrom univ (w0.map (fun x => x + 1))) now1 := by
        rw [hcl1]
        exact hlastmem
      obtain ⟨hlastp, hlastc⟩ := mem_filter_closed.mp hlastcl
      have hlastu : ((c :: cs).getLast (List.cons_ne_nil c cs)) ∈ univ :=
        (fetchFrom_sublist univ _).subset hlastp
      obtain ⟨hw0, hwlt, hwmod⟩ := haligned _ hlastu
      obtain ⟨s2, hws2, hrs2⟩ := wm_roundtrip _ hw0 hwlt
      have htrunc : 1000 * (((c :: cs).getLast (List.cons_ne_nil c cs)).openTime / 1000) =
          ((c :: cs).getLast (List.cons_ne_nil c cs)).openTime := by omega
      rw [htrunc] at hrs2
      have hph := incremental_phase_append (fetchFrom univ) now1 st0 w0 c cs s2 hread0 hcl1 hws2
      rw [hph] at h1
      simp only [Except.ok.injEq, Prod.mk.injEq] at h1
      obtain ⟨h1a, -⟩ := h1
      subst h1a
      have hread1 : read_last_open_time_ms
          (CollectorState.mk (append_rows st0.csv ((c :: cs).map kline_to_row)) (some s2)).wm =
          Except.ok (some (((c :: cs).getLast (List.cons_ne_nil c cs)).openTime)) := hrs2
      have hclsorted : List.Pairwise (fun a b => a.openTime < b.openTime) (c :: cs) := by
        rw [← hcl1, filter_closed_eq_filter]
        exact List.Pairwise.sublist
          ((List.filter_sublist _).trans (fetchFrom_sublist univ _)) hsorted
      have hcl2 : filter_closed
          (fetchFrom univ (some (((c :: cs).getLast (List.cons_ne_nil c cs)).openTime + 1)))
          now2 = [] := by
        rw [List.eq_nil_iff_forall_not_mem]
        intro k hk
        obtain ⟨hkp, hkc⟩ := mem_filter_closed.mp hk
        obtain ⟨hku, hkge2⟩ := fetchFrom_some_subset univ _ hkp
        have hkc1 : k.closeTime ≤ now1 := hnonew k hku hkc
        have hkp1 : k ∈ fetchFrom univ (w0.map (fun x => x + 1)) := by
          cases w0 with
          | none =>
            show k ∈ fetchFrom univ none
            rw [fetchFrom_none_eq univ (hpend0 hread0)]
            exact hku
          | some s0 =>
            have hlastp2 : ((c :: cs).getLast (List.cons_ne_nil c cs)) ∈
                fetchFrom univ (some (s0 + 1)) := hlastp
            have hs0w1a : s0 + 1 ≤ ((c :: cs).getLast (List.cons_ne_nil c cs)).openTime :=
              (fetchFrom_some_subset univ _ hlastp2).2
            show k ∈ fetchFrom univ (some (s0 + 1))
            rw [fetchFrom_some_eq univ _ (hpend s0 hread0), List.mem_filter]
            refine ⟨hku, ?_⟩
            simp only [decide_eq_true_eq]
            omega
        have hkcl1 : k ∈ filter_closed (fetchFrom univ (w0.map (fun x => x + 1))) now1 :=
          mem_filter_closed.mpr ⟨hkp1, hkc1⟩
        rw [hcl1] at hkcl1
        have hkle := pairwise_last_max (c :: cs) hclsorted (List.cons_ne_nil c cs) k hkcl1
        omega
      have hfinal := update_incremental_empty (fetchFrom univ) now2
        ⟨append_rows st0.csv ((c :: cs).map kline_to_row), some s2⟩
        (some (((c :: cs).getLast (List.cons_ne_nil c cs)).openTime)) hread1
        (by
          rw [show (some (((c :: cs).getLast (List.cons_ne_nil c cs)).openTime)).map
            (fun x => x + 1) =
            some (((c :: cs).getLast (List.cons_ne_nil c cs)).openTime + 1) from rfl]
          exact hcl2)
      rw [hfinal]

/-- A candle opening at 1500 ms (not second-aligned), closed at 1600 ms. -/
def kSubSec : Kline := ⟨1500, "1", "2", "0", "1", "3", 1600, "4", 5, "6", "7"⟩

/-- The state after the first incremental run of the counterexample. -/
def st1SubSec : CollectorState :=
  ⟨some [CSV_HEADER, kline_to_row kSubSec], some "1970-01-01 00:00:01 UTC"⟩

/-- The state after the second incremental run of the counterexample: the
same candle appended a second time. -/
def st2SubSec : CollectorState :=
  ⟨some [CSV_HEADER, kline_to_row kSubSec, kline_to_row kSubSec], some "1970-01-01 00:00:01 UTC"⟩

/-- C6 counterexample: with one upstream candle opening at 1500 ms,
running the incremental phase twice at the same instant (so no new closed
upstream record exists between the runs) appends one row — not zero — on
the second run: the watermark string stores whole seconds only, so 1500
reads back as 1000 and the second fetch starts at 1001, re-fetching the
same candle. -/
theorem incremental_idempotent_cex :
    (incremental_phase (fetchFrom [kSubSec]) 1000000 stIncW).2 =
        Except.ok (st1SubSec, some 1500) ∧
      (incremental_phase (fetchFrom [kSubSec]) 1000000 st1SubSec).2 =
        Except.ok (st2SubSec, some 1500) ∧
      (data_rows st2SubSec.csv).length = (data_rows st1SubSec.csv).length + 1 := by
  refine ⟨by decide, by decide, by decide⟩

/-- A second-aligned candle: opens at 1000 ms, closes at 1999 ms. -/
def kAligned : Kline := ⟨1000, "1", "2", "0", "1", "3", 1999, "4", 5, "6", "7"⟩

/-- The state after the first incremental run of the witness scenario. -/
def st1Aligned : CollectorState :=
  ⟨some [CSV_HEADER, kline_to_row kAligned], some "1970-01-01 00:00:01 UTC"⟩

/-- Witness for `incremental_idempotent`: one aligned candle, same clock
for both runs; the second run appends nothing and keeps the state. -/
theorem incremental_idempotent_witness :
    (incremental_phase (fetchFrom [kAligned]) 5000 st1Aligned).2 =
      Except.ok (st1Aligned, none) :=
  incremental_idempotent [kAligned] 5000 5000 stIncW st1Aligned (some 1000)
    (by decide) (by decide)
    (fun w0 hw => le_trans (List.length_filter_le _ _) (by decide))
    (fun hw => by decide)
    (by decide) (by decide)

/-! ### C1: dataset ordering across runs -/

/-- Contract of a sane record source (spec section 4.1 plus the fixed
5-minute grid of real candles): records at or after the queried start,
ascending open times within a page, and open times that are non-negative,
representable and whole-second aligned. -/
def SrcOk (src : KlineSource) : Prop :=
  (∀ s k, k ∈ src (some s) → s ≤ k.openTime) ∧
    (∀ st, List.Pairwise (fun a b => a.openTime < b.openTime) (src st)) ∧
    ∀ st k, k ∈ src st →
      0 ≤ k.openTime ∧ k.openTime < 253402300800000 ∧ k.openTime % 1000 = 0

theorem pyIntOfString_render (n : Int) (h : 0 ≤ n) :
    pyIntOfString (renderIntStr n) = some n := by
  have hrender : renderIntStr n = String.mk (renderNat n.toNat) := by
    rw [renderIntStr, if_neg (by omega)]
  rw [hrender, pyIntOfString]
  have hdata : (String.mk (renderNat n.toNat)).data = renderNat n.toNat := rfl
  rw [hdata]
  have hstrip : pyStripChars (renderNat n.toNat) = renderNat n.toNat := by
    apply pyStripChars_of_ends
    · intro c hc
      exact digit_not_space (renderNat_digits _ c (List.mem_of_mem_head? hc))
    · intro c hc
      have hmem : c ∈ renderNat n.toNat := by
        obtain ⟨hne, heq⟩ :=
          List.mem_getLast?_eq_getLast (show c ∈ (renderNat n.toNat).getLast? from hc)
        rw [heq]
        exact List.getLast_mem hne
      exact digit_not_space (renderNat_digits _ c hmem)
  rw [hstrip]
  obtain ⟨c0, cs0, hrn⟩ : ∃ c0 cs0, renderNat n.toNat = c0 :: cs0 := by
    rcases hx : renderNat n.toNat with _ | ⟨a, b⟩
    · exact absurd hx (renderNat_ne_nil _)
    · exact ⟨a, b, rfl⟩
  have hc0 : isAsciiDigit c0 = true := by
    apply renderNat_digits n.toNat
    rw [hrn]
    simp
  rw [hrn]
  have hdig : pyIsDigitChars (c0 :: cs0) = true := by
    simp only [pyIsDigitChars, Bool.and_eq_true, List.all_eq_true]
    refine ⟨rfl, fun c hc => renderNat_digits n.toNat c ?_⟩
    rw [hrn]
    exact hc
  split
  · rename_i ds heq
    injection heq with hh ht
    subst hh
    exact absurd hc0 (by decide)
  · rename_i ds heq
    injection heq with hh ht
    subst hh
    exact absurd hc0 (by decide)
  · rw [if_pos hdig, ← hrn, parseNatDigits_renderNat]
    congr 1
    omega

theorem row_open_kline (k : Kline) (h : 0 ≤ k.openTime) :
    row_open_ms (kline_to_row k) = k.openTime := by
  rw [kline_to_row, row_open_ms]
  rw [pyIntOfString_render k.openTime h]
  rfl

theorem map_row_open (kls : List Kline) (h : ∀ k ∈ kls, 0 ≤ k.openTime) :
    (kls.map kline_to_row).map row_open_ms = kls.map Kline.openTime := by
  rw [List.map_map]
  apply List.map_congr_left
  intro k hk
  exact row_open_kline k (h k hk)

/-- The invariant maintained by `main` under tamper-free operation: data
rows strictly ascending, every stored open time at most the watermark, an
absent watermark only alongside an empty data section, and a header-shaped
(or empty, or absent) file. -/
def StoreInv (st : CollectorState) : Prop :=
  List.Pairwise (fun a b => a < b) (data_opens st.csv) ∧
    (∀ w, read_last_open_time_ms st.wm = Except.ok (some w) → ∀ o ∈ data_opens st.csv, o ≤ w) ∧
    (read_last_open_time_ms st.wm = Except.ok none → data_opens st.csv = []) ∧
    (st.csv = none ∨ st.csv = some [] ∨ ∃ rows, st.csv = some (CSV_HEADER :: rows))

theorem data_opens_append (d rows : List (List String)) :
    data_opens (append_rows (some (CSV_HEADER :: d)) rows) =
      data_opens (some (CSV_HEADER :: d)) ++ rows.map row_open_ms := by
  rcases rows with _ | ⟨r, rs⟩
  · simp [append_rows, data_opens, data_rows]
  · simp [append_rows, data_opens, data_rows, List.map_append]

theorem ensure_shape (st : CollectorState) (hI : StoreInv st) :
    ∃ d, ensure_csv_header st.csv = some (CSV_HEADER :: d) ∧
      data_opens (ensure_csv_header st.csv) = data_opens st.csv := by
  rcases hI.2.2.2 with h | h | ⟨rows, h⟩
  · rw [h]
    exact ⟨[], rfl, by simp [ensure_csv_header, data_opens, data_rows, csv_is_empty_or_missing]⟩
  · rw [h]
    exact ⟨[], rfl, by simp [ensure_csv_header, data_opens, data_rows, csv_is_empty_or_missing]⟩
  · rw [h]
    refine ⟨rows, ?_, ?_⟩ <;>
      simp [ensure_csv_header, csv_is_empty_or_missing]

theorem closed_newest_spec (closed : List Kline) (newest : Option Int)
    (hpair : List.Pairwise (fun a b => a.openTime < b.openTime) closed) :
    (closed = [] ∧
        (match closed.getLast? with | some c => some c.openTime | none => newest) = newest) ∨
      (∃ m, (match closed.getLast? with | some c => some c.openTime | none => newest) = some m ∧
        (∃ k2, k2 ∈ closed ∧ k2.openTime = m) ∧ ∀ k ∈ closed, k.openTime ≤ m) := by
  rcases closed with _ | ⟨c, cs⟩
  · exact Or.inl ⟨rfl, rfl⟩
  · right
    have hgl : (c :: cs).getLast? = some ((c :: cs).getLast (List.cons_ne_nil c cs)) :=
      List.getLast?_eq_getLast _ _
    exact ⟨((c :: cs).getLast (List.cons_ne_nil c cs)).openTime, by rw [hgl],
      ⟨_, List.getLast_mem _, rfl⟩,
      fun k hk => pairwise_last_max _ hpair (List.cons_ne_nil c cs) k hk⟩

theorem backfill_loop_spec (src : KlineSource) (now : Int) (hsrc : SrcOk src) :
    ∀ f cursor newest acc out, backfill_loop src now f cursor newest acc = some out →
      ∃ kls : List Kline,
        out.1 = acc ++ kls.map kline_to_row ∧
        (∀ k ∈ kls, cursor ≤ k.openTime) ∧
        List.Pairwise (fun a b => a.openTime < b.openTime) kls ∧
        (∀ k ∈ kls, 0 ≤ k.openTime ∧ k.openTime < 253402300800000 ∧ k.openTime % 1000 = 0) ∧
        ((kls = [] ∧ out.2 = newest) ∨
          (∃ m, out.2 = some m ∧ (∃ k2, k2 ∈ kls ∧ k2.openTime = m) ∧
            ∀ k ∈ kls, k.openTime ≤ m)) := by
  intro f
  induction f with
  | zero =>
    intro cursor newest acc out h
    exact absurd h (by simp [backfill_loop])
  | succ f ih =>
    intro cursor newest acc out h
    rw [backfill_loop] at h
    rcases hpage : src (some cursor) with _ | ⟨k, ks⟩
    · rw [hpage] at h
      simp only [Option.some.injEq] at h
      subst h
      exact ⟨[], by simp, by simp, by simp, by simp, Or.inl ⟨rfl, rfl⟩⟩
    · rw [hpage] at h
      dsimp only at h
      have hpagemem : ∀ k2 ∈ k :: ks, cursor ≤ k2.openTime := fun k2 hk2 =>
        hsrc.1 cursor k2 (by rw [hpage]; exact hk2)
      have hpagepair : List.Pairwise (fun a b => a.openTime < b.openTime) (k :: ks) := by
        have := hsrc.2.1 (some cursor)
        rw [hpage] at this
        exact this
      have hpagealign : ∀ k2 ∈ k :: ks, 0 ≤ k2.openTime ∧ k2.openTime < 253402300800000 ∧
          k2.openTime % 1000 = 0 := fun k2 hk2 =>
        hsrc.2.2 (some cursor) k2 (by rw [hpage]; exact hk2)
      have hclosedsub : (filter_closed (k :: ks) now).Sublist (k :: ks) := by
        rw [filter_closed_eq_filter]
        exact List.filter_sublist _
      have hclmem : ∀ k2 ∈ filter_closed (k :: ks) now, k2 ∈ k :: ks := fun k2 hk2 =>
        hclosedsub.subset hk2
      have hclpair : List.Pairwise (fun a b => a.openTime < b.openTime)
          (filter_closed (k :: ks) now) := List.Pairwise.sublist hclosedsub hpagepair
      have hclle : ∀ k2 ∈ filter_closed (k :: ks) now,
          k2.openTime ≤ ((k :: ks).getLast (List.cons_ne_nil k ks)).openTime := fun k2 hk2 =>
        pairwise_last_max (k :: ks) hpagepair (List.cons_ne_nil k ks) k2 (hclmem k2 hk2)
      by_cases h1 : ((k :: ks).getLast (List.cons_ne_nil k ks)).openTime ≤ cursor
      · rw [if_pos h1] at h
        simp only [Option.some.injEq] at h
        subst h
        refine ⟨filter_closed (k :: ks) now, rfl, fun k2 hk2 => hpagemem k2 (hclmem k2 hk2),
          hclpair, fun k2 hk2 => hpagealign k2 (hclmem k2 hk2), ?_⟩
        rcases closed_newest_spec (filter_closed (k :: ks) now) newest hclpair with
          ⟨hnil, hnw⟩ | ⟨m, hm, hmem, hmax⟩
        · exact Or.inl ⟨hnil, hnw⟩
        · exact Or.inr ⟨m, hm, hmem, hmax⟩
      · rw [if_neg h1] at h
        by_cases h2 : now ≤ ((k :: ks).getLast (List.cons_ne_nil k ks)).openTime + 1
        · rw [if_pos h2] at h
          simp only [Option.some.injEq] at h
          subst h
          refine ⟨filter_closed (k :: ks) now, rfl, fun k2 hk2 => hpagemem k2 (hclmem k2 hk2),
            hclpair, fun k2 hk2 => hpagealign k2 (hclmem k2 hk2), ?_⟩
          rcases closed_newest_spec (filter_closed (k :: ks) now) newest hclpair with
            ⟨hnil, hnw⟩ | ⟨m, hm, hmem, hmax⟩
          · exact Or.inl ⟨hnil, hnw⟩
          · exact Or.inr ⟨m, hm, hmem, hmax⟩
        · rw [if_neg h2] at h
          obtain ⟨kls2, hout1, hcur2, hpair2, halign2, hnewest2⟩ := ih _ _ _ _ h
          refine ⟨filter_closed (k :: ks) now ++ kls2, ?_, ?_, ?_, ?_, ?_⟩
          · rw [hout1, List.map_append, List.append_assoc]
          · intro k2 hk2
            rcases List.mem_append.mp hk2 with hk2 | hk2
            · exact hpagemem k2 (hclmem k2 hk2)
            · have := hcur2 k2 hk2
              omega
          · rw [List.pairwise_append]
            refine ⟨hclpair, hpair2, ?_⟩
            intro a ha b hb
            have hale := hclle a ha
            have hbge := hcur2 b hb
            omega
          · intro k2 hk2
            rcases List.mem_append.mp hk2 with hk2 | hk2
            · exact hpagealign k2 (hclmem k2 hk2)
            · exact halign2 k2 hk2
          · rcases hnewest2 with ⟨hnil2, hout2⟩ | ⟨m, hm, ⟨k2, hk2mem, hk2eq⟩, hmax2⟩
            · subst hnil2
              rcases closed_newest_spec (filter_closed (k :: ks) now) newest hclpair with
                ⟨hnil, hnw⟩ | ⟨m, hm, hmem, hmax⟩
              · exact Or.inl ⟨by rw [hnil]; rfl, by rw [hout2, hnw]⟩
              · refine Or.inr ⟨m, by rw [hout2, hm], ?_, ?_⟩
                · obtain ⟨k2, hk2a, hk2b⟩ := hmem
                  exact ⟨k2, by simp [hk2a], hk2b⟩
                · intro k2 hk2
                  rcases List.mem_append.mp hk2 with hk2 | hk2
                  · exact hmax k2 hk2
                  · simp at hk2
            · refine Or.inr ⟨m, hm, ⟨k2, by simp [hk2mem], hk2eq⟩, ?_⟩
              intro k3 hk3
              rcases List.mem_append.mp hk3 with hk3 | hk3
              · have h3le := hclle k3 hk3
                have hk2ge := hcur2 k2 hk2mem
                omega
              · exact hmax2 k3 hk3

theorem run_incremental_inv (src : KlineSource) (now : Int) (st st2 : CollectorState)
    (hsrc : SrcOk src) (hI : StoreInv st) (d : List (List String))
    (hd : st.csv = some (CSV_HEADER :: d))
    (h : run_incremental_of src now st = Except.ok st2) : StoreInv st2 := by
  cases hread : read_last_open_time_ms st.wm with
  | error e =>
    have hrun : run_incremental_of src now st = Except.error RunErr.formatError := by
      simp only [run_incremental_of, incremental_phase, update_incremental, hread]
    rw [hrun] at h
    exact absurd h (by simp)
  | ok w =>
    rcases hcl : filter_closed (src (w.map (fun x => x + 1))) now with _ | ⟨c, cs⟩
    · have hph := update_incremental_empty src now st w hread hcl
      have hrun : run_incremental_of src now st = Except.ok st := by
        simp only [run_incremental_of, hph]
      rw [hrun] at h
      simp only [Except.ok.injEq] at h
      subst h
      exact hI
    · have hlastcl : (c :: cs).getLast (List.cons_ne_nil c cs) ∈
          filter_closed (src (w.map (fun x => x + 1))) now := by
        rw [hcl]
        exact List.getLast_mem _
      obtain ⟨hlastpage, -⟩ := mem_filter_closed.mp hlastcl
      obtain ⟨hopen0, hopenlt, hopenmod⟩ := hsrc.2.2 _ _ hlastpage
      obtain ⟨s2, hws2, hrs2⟩ := wm_roundtrip _ hopen0 hopenlt
      have htrunc : 1000 * (((c :: cs).getLast (List.cons_ne_nil c cs)).openTime / 1000) =
          ((c :: cs).getLast (List.cons_ne_nil c cs)).openTime := by omega
      rw [htrunc] at hrs2
      have hph := incremental_phase_append src now st w c cs s2 hread hcl hws2
      have hrun : run_incremental_of src now st =
          Except.ok ⟨append_rows st.csv ((c :: cs).map kline_to_row), some s2⟩ := by
        simp only [run_incremental_of, hph]
      rw [hrun] at h
      simp only [Except.ok.injEq] at h
      subst h
      have hclsub : (filter_closed (src (w.map (fun x => x + 1))) now).Sublist
          (src (w.map (fun x => x + 1))) := by
        rw [filter_closed_eq_filter]
        exact List.filter_sublist _
      have hclpair : List.Pairwise (fun a b => a.openTime < b.openTime) (c :: cs) := by
        rw [← hcl]
        exact List.Pairwise.sublist hclsub (hsrc.2.1 _)
      have hclpage : ∀ k ∈ c :: cs, k ∈ src (w.map (fun x => x + 1)) := by
        intro k hk
        apply hclsub.subset
        rw [hcl]
        exact hk
      have halign : ∀ k ∈ c :: cs, 0 ≤ k.openTime ∧ k.openTime < 253402300800000 ∧
          k.openTime % 1000 = 0 := fun k hk => hsrc.2.2 _ _ (hclpage k hk)
      have hmax : ∀ k ∈ c :: cs,
          k.openTime ≤ ((c :: cs).getLast (List.cons_ne_nil c cs)).openTime := fun k hk =>
        pairwise_last_max _ hclpair (List.cons_ne_nil c cs) k hk
      have hopens : data_opens (append_rows (some (CSV_HEADER :: d)) ((c :: cs).map kline_to_row))
          = data_opens (some (CSV_HEADER :: d)) ++ (c :: cs).map Kline.openTime := by
        rw [data_opens_append, map_row_open _ (fun k hk => (halign k hk).1)]
      have holdle : ∀ o ∈ data_opens (some (CSV_HEADER :: d)), ∀ k ∈ c :: cs, o < k.openTime := by
        intro o ho k hk
        cases w with
        | none =>
          have hempty : data_opens st.csv = [] := hI.2.2.1 hread
          rw [hd] at hempty
          rw [hempty] at ho
          simp at ho
        | some w0 =>
          have hole : o ≤ w0 := by
            have := hI.2.1 w0 hread o
            rw [hd] at this
            exact this ho
          have hge : w0 + 1 ≤ k.openTime := hsrc.1 (w0 + 1) k (hclpage k hk)
          omega
      refine ⟨?_, ?_, ?_, ?_⟩
      · show List.Pairwise _ (data_opens (CollectorState.mk
          (append_rows st.csv ((c :: cs).map kline_to_row)) (some s2)).csv)
        rw [hd]
        show List.Pairwise _ (data_opens (append_rows (some (CSV_HEADER :: d))
          ((c :: cs).map kline_to_row)))
        rw [hopens, List.pairwise_append]
        refine ⟨by have := hI.1; rw [hd] at this; exact this, List.pairwise_map.mpr hclpair, ?_⟩
        intro o ho o2 ho2
        obtain ⟨k, hk, hkeq⟩ := List.mem_map.mp ho2
        rw [← hkeq]
        exact holdle o ho k hk
      · intro w2 hw2 o ho
        have hw2eq : w2 = ((c :: cs).getLast (List.cons_ne_nil c cs)).openTime := by
          rw [hrs2] at hw2
          simp only [Except.ok.injEq, Option.some.injEq] at hw2
          omega
        subst hw2eq
        dsimp only at ho
        rw [hd, hopens] at ho
        rcases List.mem_append.mp ho with ho | ho
        · have := holdle o ho _ (List.getLast_mem (List.cons_ne_nil c cs))
          omega
        · obtain ⟨k, hk, hkeq⟩ := List.mem_map.mp ho
          rw [← hkeq]
          exact hmax k hk
      · intro hnone
        rw [hrs2] at hnone
        simp at hnone
      · right
        right
        refine ⟨d ++ (c :: cs).map kline_to_row, ?_⟩
        show append_rows st.csv ((c :: cs).map kline_to_row) = _
        rw [hd]
        simp [append_rows]

theorem append_rows_header (d rows : List (List String)) :
    ∃ d2, append_rows (some (CSV_HEADER :: d)) rows = some (CSV_HEADER :: d2) := by
  rcases rows with _ | ⟨r, rs⟩
  · exact ⟨d, rfl⟩
  · exact ⟨d ++ r :: rs, by simp [append_rows]⟩

theorem main_run_inv (src : KlineSource) (now1 now2 : Int) (st st2 : CollectorState)
    (hsrc : SrcOk src) (hI : StoreInv st)
    (h : main_run src now1 now2 st = Except.ok st2) : StoreInv st2 := by
  obtain ⟨d0, hens, hopenseq⟩ := ensure_shape st hI
  have hIE : StoreInv (CollectorState.mk (some (CSV_HEADER :: d0)) st.wm) := by
    refine ⟨?_, ?_, ?_, Or.inr (Or.inr ⟨d0, rfl⟩)⟩
    · show List.Pairwise _ (data_opens (some (CSV_HEADER :: d0)))
      rw [← hens, hopenseq]
      exact hI.1
    · intro w hw o ho
      apply hI.2.1 w hw
      rw [← hopenseq, hens]
      exact ho
    · intro hn
      show data_opens (some (CSV_HEADER :: d0)) = []
      rw [← hens, hopenseq]
      exact hI.2.2.1 hn
  simp only [main_run] at h
  rw [hens] at h
  cases hread : read_last_open_time_ms st.wm with
  | error e =>
    rw [show ({ st with csv := some (CSV_HEADER :: d0) } : CollectorState).wm = st.wm from rfl,
      hread] at h
    exact absurd h (by simp)
  | ok lastOpen =>
    rw [show ({ st with csv := some (CSV_HEADER :: d0) } : CollectorState).wm = st.wm from rfl,
      hread] at h
    dsimp only at h
    cases lastOpen with
    | some w =>
      rw [show (Option.isNone (some w) || csv_is_empty_or_missing (some (CSV_HEADER :: d0)))
        = false from rfl] at h
      rw [if_neg (by simp)] at h
      exact run_incremental_inv src now2 _ st2 hsrc hIE d0 rfl h
    | none =>
      rw [show (Option.isNone (none : Option Int)
        || csv_is_empty_or_missing (some (CSV_HEADER :: d0))) = true from rfl] at h
      rw [if_pos rfl] at h
      cases hbf : backfill_last_n_days src now1 with
      | none =>
        rw [hbf] at h
        exact absurd h (by simp)
      | some out =>
        obtain ⟨acc, newest⟩ := out
        rw [hbf] at h
        dsimp only at h
        obtain ⟨kls, hout1, hcur, hpair, halign, hnewest⟩ :=
          backfill_loop_spec src now1 hsrc backfillFuel (now1 - LOOKBACK_MS) none [] (acc, newest)
            hbf
        dsimp only at hout1
        simp only [List.nil_append] at hout1
        subst hout1
        have hd0 : data_opens (some (CSV_HEADER :: d0)) = [] := by
          rw [← hens, hopenseq]
          exact hI.2.2.1 hread
        cases newest with
        | none =>
          have hklsnil : kls = [] := by
            rcases hnewest with ⟨hn, -⟩ | ⟨m, hm, -, -⟩
            · exact hn
            · dsimp only at hm
              exact absurd hm (by simp)
          rw [hklsnil] at h
          dsimp only at h
          rw [show append_rows (some (CSV_HEADER :: d0)) (List.map kline_to_row []) =
            some (CSV_HEADER :: d0) from rfl] at h
          exact run_incremental_inv src now2 _ st2 hsrc hIE d0 rfl h
        | some n =>
          rcases hnewest with ⟨-, hn⟩ | ⟨m, hm, ⟨k2, hk2, hk2eq⟩, hmax⟩
          · dsimp only at hn
            exact absurd hn (by simp)
          · have hmn : m = n := by
              dsimp only at hm
              simp only [Option.some.injEq] at hm
              omega
            subst hmn
            have hklsne : kls ≠ [] := by
              intro hc
              rw [hc] at hk2
              simp at hk2
            obtain ⟨h0m, hltm, hmodm⟩ := halign k2 hk2
            rw [hk2eq] at h0m hltm hmodm
            obtain ⟨s, hws, hrs⟩ := wm_roundtrip m h0m hltm
            have htrunc : 1000 * (m / 1000) = m := by omega
            rw [htrunc] at hrs
            dsimp only at h
            rw [hws] at h
            obtain ⟨d2, happ⟩ := append_rows_header d0 (kls.map kline_to_row)
            have hopens2 : data_opens (append_rows (some (CSV_HEADER :: d0))
                (kls.map kline_to_row)) = kls.map Kline.openTime := by
              rw [data_opens_append, hd0,
                map_row_open kls (fun k hk => (halign k hk).1)]
              simp
            have hIMid : StoreInv (CollectorState.mk
                (append_rows (some (CSV_HEADER :: d0)) (kls.map kline_to_row)) (some s)) := by
              refine ⟨?_, ?_, ?_, Or.inr (Or.inr ⟨d2, happ⟩)⟩
              · show List.Pairwise _ (data_opens (append_rows (some (CSV_HEADER :: d0))
                  (kls.map kline_to_row)))
                rw [hopens2]
                exact List.pairwise_map.mpr hpair
              · intro w2 hw2 o ho
                have hw2eq : w2 = m := by
                  rw [hrs] at hw2
                  simp only [Except.ok.injEq, Option.some.injEq] at hw2
                  omega
                subst hw2eq
                dsimp only at ho
                rw [hopens2] at ho
                obtain ⟨k3, hk3, hk3eq⟩ := List.mem_map.mp ho
                rw [← hk3eq]
                exact hmax k3 hk3
              · intro hnone
                rw [hrs] at hnone
                simp at hnone
            exact run_incremental_inv src now2 _ st2 hsrc hIMid d2 happ h

/-- C1 (amended): across any sequence of `main` runs starting from a state
satisfying the store invariant (watermark at least every stored open time
and absent only when no data rows exist — e.g. the genuine initial empty
state), with each run's source honouring the ascending, whole-second,
at-or-after-start record contract, the open times of the data rows remain
strictly increasing in file order (hence duplicate-free), and the
invariant is preserved. -/
theorem dataset_monotone (runs : List (KlineSource × Int × Int)) (st0 st2 : CollectorState)
    (hs : ∀ r ∈ runs, SrcOk r.1) (hI : StoreInv st0)
    (h : run_sequence runs st0 = Except.ok st2) :
    List.Pairwise (fun a b => a < b) (data_opens st2.csv) ∧ StoreInv st2 := by
  induction runs generalizing st0 with
  | nil =>
    simp only [run_sequence, Except.ok.injEq] at h
    subst h
    exact ⟨hI.1, hI⟩
  | cons r rest ih =>
    obtain ⟨src, n1, n2⟩ := r
    simp only [run_sequence] at h
    cases hmr : main_run src n1 n2 st0 with
    | error e =>
      rw [hmr] at h
      exact absurd h (by simp)
    | ok stMid =>
      rw [hmr] at h
      dsimp only at h
      have hIM := main_run_inv src n1 n2 st0 stMid (hs (src, n1, n2) (by simp)) hI hmr
      exact ih stMid (fun r2 hr2 => hs r2 (List.mem_cons_of_mem _ hr2)) hIM h

/-- The candle used by the tampered-state counterexample: a 5-minute
candle on the second grid. -/
def kTamper : Kline := ⟨300000, "1", "2", "0", "1", "3", 599999, "4", 5, "6", "7"⟩

/-- A well-behaved source holding exactly `kTamper`. -/
def srcTamper : KlineSource := fun c =>
  match c with
  | some c2 => if c2 ≤ 300000 then [kTamper] else []
  | none => []

/-- The tampered start state of the counterexample: the dataset already
contains the candle's row, but the watermark file is absent. -/
def stTamper : CollectorState := ⟨some [CSV_HEADER, kline_to_row kTamper], none⟩

/-- The state one run of `main` produces from `stTamper`: the same row
appended a second time. -/
def stTamperOut : CollectorState :=
  ⟨some [CSV_HEADER, kline_to_row kTamper, kline_to_row kTamper],
    some "1970-01-01 00:05:00 UTC"⟩

/-- C1 counterexample: from a reachable-per-the-claim state — watermark
file absent while the dataset file is non-empty — one run of `main`
against a contract-honouring source re-backfills the already stored candle
and leaves two data rows with equal open_time 300000: not strictly
increasing, a duplicate. -/
theorem dataset_monotone_cex :
    SrcOk srcTamper ∧
      run_sequence [(srcTamper, 5184300000, 5184300000)] stTamper = Except.ok stTamperOut ∧
      ¬ List.Pairwise (fun a b => a < b) (data_opens stTamperOut.csv) := by
  refine ⟨⟨?_, ?_, ?_⟩, by decide, by decide⟩
  · intro s k hk
    simp only [srcTamper] at hk
    by_cases hs2 : s ≤ 300000
    · rw [if_pos hs2] at hk
      simp only [List.mem_singleton] at hk
      subst hk
      rw [show kTamper.openTime = 300000 from rfl]
      exact hs2
    · rw [if_neg hs2] at hk
      simp at hk
  · intro stq
    cases stq with
    | none => simp [srcTamper]
    | some s =>
      simp only [srcTamper]
      by_cases hs2 : s ≤ 300000
      · rw [if_pos hs2]
        simp
      · rw [if_neg hs2]
        simp
  · intro stq k hk
    have hk2 : k = kTamper := by
      cases stq with
      | none => simp [srcTamper] at hk
      | some s =>
        simp only [srcTamper] at hk
        by_cases hs2 : s ≤ 300000
        · rw [if_pos hs2] at hk
          simpa using hk
        · rw [if_neg hs2] at hk
          simp at hk
    subst hk2
    refine ⟨by decide, by decide, by decide⟩

/-- A source with no records at all. -/
def srcEmpty : KlineSource := fun _ => []

/-- Witness for `dataset_monotone`: one run from the genuine initial state
(no dataset file, no watermark file) against an empty source. -/
theorem dataset_monotone_witness :
    List.Pairwise (fun a b => a < b)
        (data_opens (CollectorState.mk (some [CSV_HEADER]) none).csv) ∧
      StoreInv (CollectorState.mk (some [CSV_HEADER]) none) :=
  dataset_monotone [(srcEmpty, 100, 100)] ⟨none, none⟩ ⟨some [CSV_HEADER], none⟩
    (by
      intro r hr
      simp only [List.mem_singleton] at hr
      subst hr
      exact ⟨fun s k hk => absurd hk (by simp [srcEmpty]),
        fun stq => by simp [srcEmpty],
        fun stq k hk => absurd hk (by simp [srcEmpty])⟩)
    (by
      refine ⟨?_, ?_, ?_, Or.inl rfl⟩
      · simp [data_opens, data_rows]
      · intro w hw
        simp [read_last_open_time_ms] at hw
      · intro _
        rfl)
    (by decide)
